import Mathlib

/-!
A shallow embedding of the Luna execution engine (lexer, parser, lowering
compiler, stack-machine interpreter and JIT profiler) together with proofs
about the claims of the specification.

Modelling conventions, used throughout:

* Rust `f64` numbers are modelled as rationals (`ℚ`).  All numeric literals
  appearing in the verified programs are small integers, which both `f64`
  and `ℚ` represent exactly; the division/modulo-by-zero guards compare
  against the exact value `0`, which again coincides.  IEEE infinities and
  NaN have no counterpart in the model (no claim depends on them) and the
  string-to-number parser rejects the textual forms `inf`/`nan`.
* Rust `Vec` stacks (`stack`, `call_stack`) are modelled as Lean lists whose
  HEAD is the vector's LAST element (the top of the stack), so `Vec::push`
  is list cons and `Vec::pop` takes the head.  Local-slot arrays, token
  vectors and instruction vectors keep the natural left-to-right order.
* `HashMap<String, V>` is modelled as an association list with
  insert-overwrite semantics (`AList`-style); iteration order never matters
  to any verified claim.
* Rust panics (out-of-bounds indexing, explicit `panic!`) are modelled by
  `Option.none`; recoverable `Result::Err` values are `Except.error`.
* Side effects on stdout (`print`, `println!`) are not modelled; the
  instructions performing them behave identically otherwise.
* The external standard-library callbacks (`BuiltinFunction`) are an
  explicit parameter of the interpreter, mirroring the specification's
  scoping of the registry as an external collaborator; the registry's
  *names* and numeric ids are embedded concretely from `vm.rs`.
* Both the interpreter loop and the recursive-descent parser are given
  explicit fuel; `none` means the fuel ran out.  The interpreter loop also
  returns the list of program counters it executed, a ghost observation
  that exists only in the model (the computed result and state mirror the
  source exactly and do not depend on it).
-/

set_option maxRecDepth 8000

namespace Luna

/-! ## Values (`value.rs`) -/

/-- `Value` from `value.rs`.  `Number` carries a rational (see the modelling
conventions above); `Table` is an association list standing for
`HashMap<String, Value>`. -/
inductive Value where
  | nil : Value
  | boolean (b : Bool) : Value
  | number (n : ℚ) : Value
  | string (s : String) : Value
  | table (entries : List (String × Value)) : Value
  | function (id : Nat) : Value
deriving Repr, Inhabited

/-- `Value::type_name`. -/
def Value.type_name : Value → String
  | .nil => "nil"
  | .boolean _ => "boolean"
  | .number _ => "number"
  | .string _ => "string"
  | .table _ => "table"
  | .function _ => "function"

/-- `Value::is_truthy`: `Nil` and `false` are falsy, everything else truthy. -/
def Value.is_truthy : Value → Bool
  | .nil => false
  | .boolean b => b
  | _ => true

/-- Decimal digits of a natural number (auxiliary for number formatting). -/
def natDigits (n : Nat) : String := toString n

/-- Integer rendering (auxiliary for number formatting). -/
def intRender (i : Int) : String := toString i

/-- Fraction-digit expansion of `num/den` (`0 ≤ num < den`), emitting decimal
digits until the remainder vanishes or the fuel runs out.  Every `f64` value
is a dyadic rational, whose decimal expansion terminates, so for values
arising from the Rust program the fuel (1100 digits covers all of `f64`)
is never exhausted. -/
def fracDigits : Nat → Nat → Nat → String
  | 0, _, _ => ""
  | _ + 1, _, 0 => ""
  | fuel + 1, den, num =>
    if num = 0 then ""
    else
      let num' := num * 10
      let d := num' / den
      natDigits d ++ fracDigits fuel den (num' % den)

/-- Rendering of a rational as Rust's `Display` for `f64` renders the
corresponding double: integral values print without a fractional part
(`n as i64`, saturating at the `i64` bounds), other values print their
(terminating, for dyadic rationals) decimal expansion. -/
def ratRender (q : ℚ) : String :=
  if q.den = 1 then
    intRender (max (min q.num (2 ^ 63 - 1)) (-(2 ^ 63)))
  else
    let sign := if q.num < 0 then "-" else ""
    let num := q.num.natAbs
    sign ++ natDigits (num / q.den) ++ "." ++ fracDigits 1100 q.den (num % q.den)

/-- `Display for Value` (`value.rs`): numbers with zero fractional part are
printed as integers (`n as i64`), tables print as the word `table`,
functions as `function:<id>`. -/
def Value.to_string : Value → String
  | .nil => "nil"
  | .boolean b => if b then "true" else "false"
  | .number n => ratRender n
  | .string s => s
  | .table _ => "table"
  | .function id => "function:" ++ natDigits id

/-- Is the character an ASCII digit? -/
def isDigitChar (c : Char) : Bool := c.isDigit

/-- Digit-string to natural number (the string must be all digits). -/
def digitsToNat (l : List Char) : Nat :=
  l.foldl (fun acc c => acc * 10 + (c.toNat - 48)) 0

/-- Rust's `str::parse::<f64>` restricted to the forms the model supports:
an optional sign, a decimal significand (`123`, `123.`, `123.45`, `.45`) and
an optional decimal exponent.  The IEEE textual forms `inf`/`infinity`/`nan`
are rejected (no rational counterpart; no claim depends on them). -/
def parseF64 (s : String) : Option ℚ :=
  let chars := s.toList
  let (neg, rest) :=
    match chars with
    | '-' :: r => (true, r)
    | '+' :: r => (false, r)
    | r => (false, r)
  let intPart := rest.takeWhile isDigitChar
  let rest₁ := rest.drop intPart.length
  let (fracPart, rest₂) :=
    match rest₁ with
    | '.' :: r => (r.takeWhile isDigitChar, (r.takeWhile isDigitChar).length + 1)
    | _ => ([], 0)
  let rest₃ := rest₁.drop rest₂
  let expo : Option Int :=
    match rest₃ with
    | [] => some 0
    | 'e' :: r | 'E' :: r =>
      let (eneg, er) :=
        match r with
        | '-' :: er => (true, er)
        | '+' :: er => (false, er)
        | er => (false, er)
      if er ≠ [] ∧ er.all isDigitChar then
        some (if eneg then -(digitsToNat er : Int) else (digitsToNat er : Int))
      else none
    | _ => none
  match expo with
  | none => none
  | some e =>
    if intPart.isEmpty ∧ fracPart.isEmpty then none
    else
      let mantissa : ℚ :=
        (digitsToNat intPart : ℚ) +
          (digitsToNat fracPart : ℚ) / ((10 : ℚ) ^ fracPart.length)
      let scaled : ℚ :=
        if 0 ≤ e then mantissa * (10 : ℚ) ^ e.toNat
        else mantissa / ((10 : ℚ) ^ (-e).toNat)
      some (if neg then -scaled else scaled)

/-- `Value::to_number`: numbers pass through, strings attempt a numeric
parse, everything else is not a number. -/
def Value.to_number : Value → Option ℚ
  | .number n => some n
  | .string s => parseF64 s
  | _ => none

/-- Association-list lookup (model of `HashMap::get`). -/
def alistGet (m : List (String × Value)) (k : String) : Option Value :=
  match m with
  | [] => none
  | (k', v) :: rest => if k' = k then some v else alistGet rest k

/-- Association-list insert-overwrite (model of `HashMap::insert`). -/
def alistInsert (m : List (String × Value)) (k : String) (v : Value) :
    List (String × Value) :=
  match m with
  | [] => [(k, v)]
  | (k', v') :: rest =>
    if k' = k then (k, v) :: rest else (k', v') :: alistInsert rest k v

/-- `PartialEq for Value` (derived in `value.rs`): structural equality, with
tables compared entry-wise as `HashMap` equality does (same size, every key
of the left maps to an equal value on the right). -/
def Value.beq (a b : Value) : Bool :=
  match a, b with
  | .nil, .nil => true
  | .boolean x, .boolean y => x == y
  | .number x, .number y => x == y
  | .string x, .string y => x == y
  | .function x, .function y => x == y
  | .table xs, .table ys =>
    xs.length == ys.length &&
      xs.attach.all (fun p =>
        match alistGet ys p.1.1 with
        | some w => Value.beq p.1.2 w
        | none => false)
  | _, _ => false
termination_by sizeOf a
decreasing_by
  simp_wf
  obtain ⟨⟨k, v⟩, hmem⟩ := p
  have h := List.sizeOf_lt_of_mem hmem
  simp at h ⊢
  omega

/-! ## The external function registry (`vm.rs`) -/

/-- The registration order of `StandardLibrary::new` (`vm.rs`): the index of
a name in this list is its numeric function id. -/
def function_names : List String :=
  [ "print", "type", "tostring", "tonumber", "pairs", "ipairs", "next",
    "rawget", "rawset", "getmetatable", "setmetatable", "pcall", "xpcall",
    "error", "assert",
    "string.len", "string.sub", "string.upper", "string.lower",
    "string.char", "string.byte", "string.find", "string.gsub",
    "math.abs", "math.ceil", "math.floor", "math.max", "math.min",
    "math.sqrt", "math.sin", "math.cos", "math.tan", "math.pi",
    "math.random",
    "table.insert", "table.remove", "table.concat", "table.sort",
    "io.write", "io.read" ]

/-- `StandardLibrary::get_function`, restricted to the numeric id component
(the callback itself is an external collaborator). -/
def get_function (name : String) : Option Nat :=
  function_names.indexOf? name

/-- The signature of an external standard-library callback
(`BuiltinFunction` in `vm.rs`): arguments in, value or error out. -/
def BuiltinFn : Type := List Value → Except String Value

/-- `StandardLibrary::get_function_by_id`, abstracted: the interpreter is
parametric in this map from numeric ids to callbacks. -/
def BuiltinTable : Type := Nat → Option BuiltinFn

/-! ## Bytecode (`bytecode.rs`) -/

/-- `Instruction` from `bytecode.rs` (the full opcode set). -/
inductive Instruction where
  | LoadConst (value : Value)
  | LoadGlobal (name : String)
  | StoreGlobal (name : String)
  | LoadLocal (index : Nat)
  | StoreLocal (index : Nat)
  | Add | Sub | Mul | Div | Mod | Pow | Neg
  | Equal | NotEqual | Less | LessEqual | Greater | GreaterEqual
  | And | Or | Not
  | Jump (target : Nat)
  | JumpIfFalse (target : Nat)
  | JumpIfTrue (target : Nat)
  | Call (arg_count : Nat)
  | Return
  | Pop | Dup
  | MakeFunction (index : Nat)
  | NewTable | GetIndex | SetIndex
  | Concat
  | ForPrep (target : Nat)
  | ForLoop (target : Nat)
deriving Repr, Inhabited

/-- `Chunk` from `bytecode.rs`: instruction sequence, constant pool and the
parallel line-number table. -/
structure Chunk where
  instructions : List Instruction
  constants : List Value
  line_numbers : List Nat
deriving Repr, Inhabited

/-- `Chunk::new`. -/
def Chunk.new : Chunk := ⟨[], [], []⟩

/-- `Chunk::emit`: append an instruction together with its source line. -/
def Chunk.emit (c : Chunk) (instruction : Instruction) (line : Nat) : Chunk :=
  { c with
    instructions := c.instructions ++ [instruction]
    line_numbers := c.line_numbers ++ [line] }

/-- `Chunk::add_constant`: append a constant, returning its fresh slot. -/
def Chunk.add_constant (c : Chunk) (value : Value) : Chunk × Nat :=
  ({ c with constants := c.constants ++ [value] }, c.constants.length)

/-- The target-rewriting step of `Chunk::patch_jump`: `some` of the updated
instruction when the argument is a jump, `none` otherwise. -/
def retarget (i : Instruction) (t : Nat) : Option Instruction :=
  match i with
  | .Jump _ => some (.Jump t)
  | .JumpIfFalse _ => some (.JumpIfFalse t)
  | .JumpIfTrue _ => some (.JumpIfTrue t)
  | _ => none

/-- `Chunk::patch_jump`: rewrite the target of the jump at `offset` to the
chunk's current instruction count.  `none` models the Rust panic — on a
non-jump instruction (`panic!("Not a jump instruction")`) or an
out-of-bounds index. -/
def Chunk.patch_jump (c : Chunk) (offset : Nat) : Option Chunk :=
  match c.instructions[offset]? with
  | none => none
  | some i =>
    match retarget i c.instructions.length with
    | none => none
    | some i' => some { c with instructions := c.instructions.set offset i' }

/-! ## JIT profiler (`jit.rs`) -/

/-- `JitCompiler` (`jit.rs`), restricted to the profiling state the claims
are about: the compilation threshold and the per-program-counter execution
counts (`HashMap<usize, u32>`, modelled as an association list).  The
`hot_spots` map holding raw machine code is not modelled (its
executable-memory payload is outside a shallow embedding and no claim
depends on it). -/
structure JitCompiler where
  threshold : Nat
  execution_counts : List (Nat × Nat)
deriving Repr, Inhabited

/-- `JitCompiler::new`: the compilation threshold is fixed at 100. -/
def JitCompiler.new : JitCompiler := ⟨100, []⟩

/-- Lookup in the execution-count map, `unwrap_or(0)` style. -/
def countsGet (m : List (Nat × Nat)) (pc : Nat) : Nat :=
  match m with
  | [] => 0
  | (k, v) :: rest => if k = pc then v else countsGet rest pc

/-- Insert-or-increment on the execution-count map
(`entry(pc).or_insert(0) += 1`). -/
def countsBump (m : List (Nat × Nat)) (pc : Nat) : List (Nat × Nat) :=
  match m with
  | [] => [(pc, 1)]
  | (k, v) :: rest =>
    if k = pc then (k, v + 1) :: rest else (k, v) :: countsBump rest pc

/-- `JitCompiler::record_execution`. -/
def JitCompiler.record_execution (j : JitCompiler) (pc : Nat) : JitCompiler :=
  { j with execution_counts := countsBump j.execution_counts pc }

/-- `JitCompiler::should_compile`: the recorded count has reached the
threshold. -/
def JitCompiler.should_compile (j : JitCompiler) (pc : Nat) : Bool :=
  j.threshold ≤ countsGet j.execution_counts pc

/-- Does this instruction end a hot region (`find_hot_region_end`'s match)? -/
def isRegionBoundary : Instruction → Bool
  | .Jump _ | .JumpIfFalse _ | .JumpIfTrue _ | .Return => true
  | _ => false

/-- The forward scan of `JitCompiler::find_hot_region_end`, expressed as a
recursion on the remaining distance to the end of the chunk. -/
def regionScan (instrs : List Instruction) (i : Nat) : Nat :=
  match h : instrs[i]? with
  | none => instrs.length
  | some instr =>
    if isRegionBoundary instr then i + 1
    else regionScan instrs (i + 1)
termination_by instrs.length - i
decreasing_by
  obtain ⟨h2, -⟩ := List.getElem?_eq_some_iff.mp h
  omega

/-- `JitCompiler::find_hot_region_end`: scan forward from `start_pc` for the
first jump or return (inclusive); if none follows, the region runs to the
end of the chunk. -/
def JitCompiler.find_hot_region_end (_j : JitCompiler) (chunk : Chunk)
    (start_pc : Nat) : Nat :=
  regionScan chunk.instructions start_pc

/-! ## AST (`ast.rs`) -/

/-- `BinaryOp` from `ast.rs`. -/
inductive BinaryOp where
  | Add | Sub | Mul | Div | Mod | Pow
  | Equal | NotEqual | Less | LessEqual | Greater | GreaterEqual
  | And | Or | Concat
deriving Repr, DecidableEq, Inhabited

/-- `UnaryOp` from `ast.rs`. -/
inductive UnaryOp where
  | Not | Minus
deriving Repr, DecidableEq, Inhabited

/-- `Expr` from `ast.rs`. -/
inductive Expr where
  | Literal (value : Value)
  | Identifier (name : String)
  | Binary (left : Expr) (operator : BinaryOp) (right : Expr)
  | Unary (operator : UnaryOp) (operand : Expr)
  | Call (callee : Expr) (args : List Expr)
  | Index (object : Expr) (index : Expr)
  | FieldAccess (object : Expr) (field : String)
deriving Repr, Inhabited

/-- `Stmt` from `ast.rs`.  The Rust field `end` of the `For` variant is
renamed `stop` (`end` is reserved in Lean). -/
inductive Stmt where
  | Expression (e : Expr)
  | Assignment (target : String) (value : Expr)
  | LocalAssignment (names : List String) (values : List Expr)
  | If (condition : Expr) (then_branch : List Stmt)
      (else_branch : Option (List Stmt))
  | While (condition : Expr) (body : List Stmt)
  | For (var : String) (start : Expr) (stop : Expr) (step : Option Expr)
      (body : List Stmt)
  | Function (name : String) (params : List String) (body : List Stmt)
  | Return (value : Option Expr)
  | Break
deriving Repr, Inhabited

/-- `Program` from `ast.rs`. -/
structure Program where
  statements : List Stmt
deriving Repr, Inhabited

/-! ## Lowering compiler (`bytecode.rs`, `Compiler`) -/

/-- `Compiler` state from `bytecode.rs`. -/
structure Compiler where
  chunk : Chunk
  scope_depth : Nat
  locals : List String
deriving Repr, Inhabited

/-- `Compiler::new`. -/
def Compiler.new : Compiler := ⟨Chunk.new, 0, []⟩

/-- `Compiler::add_local`. -/
def Compiler.add_local (st : Compiler) (name : String) : Compiler :=
  { st with locals := st.locals ++ [name] }

/-- `Compiler::resolve_local`: scan the declared locals from the most
recently declared backward, returning the slot of the first (i.e. latest)
declaration of the name. -/
def resolve_local (locals : List String) (name : String) : Option Nat :=
  match locals with
  | [] => none
  | x :: rest =>
    match resolve_local rest name with
    | some i => some (i + 1)
    | none => if x = name then some 0 else none

/-- Emission inside the compiler: every `compile_*` emission passes source
line 0 (as the Rust code does). -/
def Compiler.emitI (st : Compiler) (i : Instruction) : Compiler :=
  { st with chunk := st.chunk.emit i 0 }

/-- `Compiler::emit_jump`: emit a placeholder jump and return its index. -/
def Compiler.emit_jump (st : Compiler) (i : Instruction) : Compiler × Nat :=
  (st.emitI i, st.chunk.instructions.length)

/-- `Compiler::patch_jump` (delegating to `Chunk::patch_jump`); the Rust
panic on a non-jump instruction is modelled as an error tagged `panic:`. -/
def Compiler.patch (st : Compiler) (offset : Nat) : Except String Compiler :=
  match st.chunk.patch_jump offset with
  | some c => .ok { st with chunk := c }
  | none => .error "panic: Not a jump instruction"

/-- The operator table of `compile_expression`'s `Binary` arm. -/
def binInstr : BinaryOp → Instruction
  | .Add => .Add
  | .Sub => .Sub
  | .Mul => .Mul
  | .Div => .Div
  | .Mod => .Mod
  | .Pow => .Pow
  | .Equal => .Equal
  | .NotEqual => .NotEqual
  | .Less => .Less
  | .LessEqual => .LessEqual
  | .Greater => .Greater
  | .GreaterEqual => .GreaterEqual
  | .And => .And
  | .Or => .Or
  | .Concat => .Concat

/-- The operator table of `compile_expression`'s `Unary` arm. -/
def unInstr : UnaryOp → Instruction
  | .Minus => .Neg
  | .Not => .Not

mutual

/-- `Compiler::compile_expression`. -/
def compile_expression (e : Expr) (st : Compiler) : Except String Compiler :=
  match e with
  | .Literal v => .ok (st.emitI (.LoadConst v))
  | .Identifier name =>
    match resolve_local st.locals name with
    | some i => .ok (st.emitI (.LoadLocal i))
    | none => .ok (st.emitI (.LoadGlobal name))
  | .Binary l op r => do
    let st ← compile_expression l st
    let st ← compile_expression r st
    .ok (st.emitI (binInstr op))
  | .Unary op operand => do
    let st ← compile_expression operand st
    .ok (st.emitI (unInstr op))
  | .Call callee args => do
    let st ← compile_expr_list args st
    let st ← compile_expression callee st
    .ok (st.emitI (.Call args.length))
  | .FieldAccess obj field => do
    let st ← compile_expression obj st
    let st := st.emitI (.LoadConst (.string field))
    .ok (st.emitI .GetIndex)
  | .Index _ _ => .error "Expression not implemented"

/-- The argument loop of `compile_expression`'s `Call` arm and the value
loop of `compile_statement`'s `LocalAssignment` arm. -/
def compile_expr_list (es : List Expr) (st : Compiler) :
    Except String Compiler :=
  match es with
  | [] => .ok st
  | e :: rest => do
    let st ← compile_expression e st
    compile_expr_list rest st

end

/-- Nil-padding loop of the `LocalAssignment` arm
(`for _ in values.len()..names.len()`). -/
def emitNils (st : Compiler) : Nat → Compiler
  | 0 => st
  | n + 1 => emitNils (st.emitI (.LoadConst .nil)) n

/-- The store loop of the `LocalAssignment` arm: the argument list is the
`names` list already reversed (`names.iter().rev()`); each name is declared
and stored into its fresh slot. -/
def store_locals (names : List String) (st : Compiler) : Compiler :=
  match names with
  | [] => st
  | n :: rest =>
    let st := st.add_local n
    let st := st.emitI (.StoreLocal (st.locals.length - 1))
    store_locals rest st

mutual

/-- `Compiler::compile_statement`. -/
def compile_statement (s : Stmt) (st : Compiler) : Except String Compiler :=
  match s with
  | .Expression e => do
    let st ← compile_expression e st
    .ok (st.emitI .Pop)
  | .Assignment target value => do
    let st ← compile_expression value st
    match resolve_local st.locals target with
    | some i => .ok (st.emitI (.StoreLocal i))
    | none => .ok (st.emitI (.StoreGlobal target))
  | .LocalAssignment names values => do
    let st ← compile_expr_list values st
    let st := emitNils st (names.length - values.length)
    .ok (store_locals names.reverse st)
  | .If condition then_branch else_branch => do
    let st ← compile_expression condition st
    let (st, else_jump) := st.emit_jump (.JumpIfFalse 0)
    let st ← compile_stmt_list then_branch st
    let (st, end_jump) := st.emit_jump (.Jump 0)
    let st ← st.patch else_jump
    let st ←
      match else_branch with
      | some else_stmts => compile_stmt_list else_stmts st
      | none => .ok st
    st.patch end_jump
  | .While condition body => do
    let loop_start := st.chunk.instructions.length
    let st ← compile_expression condition st
    let (st, exit_jump) := st.emit_jump (.JumpIfFalse 0)
    let st ← compile_stmt_list body st
    let st := st.emitI (.Jump loop_start)
    st.patch exit_jump
  | .Return value => do
    let st ←
      match value with
      | some e => compile_expression e st
      | none => .ok (st.emitI (.LoadConst .nil))
    .ok (st.emitI .Return)
  | .For var start stop step body => do
    let st ← compile_expression start st
    let st := st.add_local var
    let var_index := st.locals.length - 1
    let st := st.emitI (.StoreLocal var_index)
    let st ← compile_expression stop st
    let st := st.add_local (var ++ "_end")
    let end_index := st.locals.length - 1
    let st := st.emitI (.StoreLocal end_index)
    let st ←
      match step with
      | some step_expr => compile_expression step_expr st
      | none => .ok (st.emitI (.LoadConst (.number 1)))
    let st := st.add_local (var ++ "_step")
    let step_index := st.locals.length - 1
    let st := st.emitI (.StoreLocal step_index)
    let loop_start := st.chunk.instructions.length
    let st := st.emitI (.LoadLocal var_index)
    let st := st.emitI (.LoadLocal end_index)
    let st := st.emitI .LessEqual
    let (st, exit_jump) := st.emit_jump (.JumpIfFalse 0)
    let st ← compile_stmt_list body st
    let st := st.emitI (.LoadLocal var_index)
    let st := st.emitI (.LoadLocal step_index)
    let st := st.emitI .Add
    let st := st.emitI (.StoreLocal var_index)
    let st := st.emitI (.Jump loop_start)
    st.patch exit_jump
  | .Function _ _ _ => .error "Statement not implemented"
  | .Break => .error "Statement not implemented"

/-- The statement loops of `compile` and of the block-structured statement
arms. -/
def compile_stmt_list (ss : List Stmt) (st : Compiler) :
    Except String Compiler :=
  match ss with
  | [] => .ok st
  | s :: rest => do
    let st ← compile_statement s st
    compile_stmt_list rest st

end

/-- `Compiler::compile`: compile every statement, then terminate the chunk
with the implicit `LoadConst(Nil); Return` pair. -/
def Compiler.compile (program : Program) : Except String Chunk :=
  match compile_stmt_list program.statements Compiler.new with
  | .error e => .error e
  | .ok st => .ok ((st.chunk.emit (.LoadConst .nil) 0).emit .Return 0)

/-! ## Interpreter (`runtime.rs`) -/

/-- `CallFrame` from `runtime.rs`. -/
structure CallFrame where
  chunk : Chunk
  pc : Nat
  locals : List Value
deriving Repr, Inhabited

/-- `LuaJitRuntime` state (`runtime.rs`).  The `stdlib` callbacks are the
interpreter's `BuiltinTable` parameter (see the modelling conventions); the
`jit_compiler` field carries the profiling state. -/
structure LuaJitRuntime where
  globals : List (String × Value)
  stack : List Value
  call_stack : List CallFrame
  jit_compiler : JitCompiler
deriving Repr, Inhabited

/-- Apply a function to the top call frame, if any (`call_stack.last_mut()`
guarded by `if let Some`). -/
def withTopFrame (st : LuaJitRuntime) (f : CallFrame → CallFrame) :
    LuaJitRuntime :=
  match st.call_stack with
  | [] => st
  | frame :: rest => { st with call_stack := f frame :: rest }

/-- Push a value onto the operand stack. -/
def push (st : LuaJitRuntime) (v : Value) : LuaJitRuntime :=
  { st with stack := v :: st.stack }

/-- The local-slot write of `StoreLocal`: pad the slot array with `Nil`
(`while frame.locals.len() <= index`) and then write the slot. -/
def localsSet (locals : List Value) (index : Nat) (v : Value) : List Value :=
  (locals ++ List.replicate (index + 1 - locals.length) Value.nil).set index v

/-- Truncation toward zero of a rational (the rounding `a / b` receives in
Rust's float remainder `a % b`). -/
def ratTrunc (q : ℚ) : Int := if 0 ≤ q then ⌊q⌋ else ⌈q⌉

/-- Rust's `%` on `f64` (truncated remainder, sign of the dividend). -/
def fRem (a b : ℚ) : ℚ := a - b * (ratTrunc (a / b) : ℚ)

/-- `f64::powf`, modelled on rational bases: exact for integer exponents;
a non-integer exponent yields an irrational number in general, which the
rational model renders as `0` (no claim exercises `Pow`). -/
def fPow (a b : ℚ) : ℚ :=
  if b.den = 1 then
    if 0 ≤ b.num then a ^ b.num.toNat else (a ^ (-b.num).toNat)⁻¹
  else 0

/-- `LuaJitRuntime::execute_instruction`.  `builtins` stands for
`self.stdlib.get_function_by_id` (external registry callbacks).  Error
strings reproduce the Rust messages; where Rust interpolates a `{:?}` debug
rendering the payload is omitted (no claim depends on those payloads).
Stdout effects of `print` are not modelled. -/
def execute_instruction (builtins : BuiltinTable)
    (instruction : Instruction) (st : LuaJitRuntime) :
    Except String LuaJitRuntime :=
  match instruction with
  | .LoadConst value => .ok (push st value)
  | .LoadGlobal name =>
    .ok (push st ((alistGet st.globals name).getD .nil))
  | .StoreGlobal name =>
    match st.stack with
    | value :: rest =>
      .ok { st with globals := alistInsert st.globals name value,
                    stack := rest }
    | [] => .error "Stack underflow"
  | .Call arg_count =>
    if st.stack.length < arg_count + 1 then
      .error "Not enough arguments for call"
    else
      match st.stack with
      | [] => .error "Not enough arguments for call"
      | func :: s =>
        let args := (s.take arg_count).reverse
        let st := { st with stack := s.drop arg_count }
        match func with
        | .function id =>
          if id = 0 then .ok (push st .nil)
          else
            match builtins id with
            | some builtin_func =>
              match builtin_func args with
              | .ok result => .ok (push st result)
              | .error e => .error ("Function error: " ++ e)
            | none => .error ("Unknown function ID: " ++ natDigits id)
        | _ => .error "Cannot call non-function value"
  | .GetIndex =>
    if st.stack.length < 2 then
      .error "Not enough operands for index access"
    else
      match st.stack with
      | key :: tableV :: rest =>
        let st := { st with stack := rest }
        match tableV with
        | .table t =>
          let key_str := key.to_string
          .ok (push st ((alistGet t key_str).getD .nil))
        | _ =>
          let full_name := tableV.to_string ++ "." ++ key.to_string
          match get_function full_name with
          | some id => .ok (push st (.function id))
          | none => .ok (push st .nil)
      | _ => .error "Not enough operands for index access"
  | .Pop => .ok { st with stack := st.stack.tail }
  | .Return => .ok st
  | .Add =>
    match st.stack with
    | b :: a :: rest =>
      match a.to_number, b.to_number with
      | some a_num, some b_num =>
        .ok (push { st with stack := rest } (.number (a_num + b_num)))
      | _, _ => .error "Cannot add non-numeric values"
    | _ => .error "Not enough operands for addition"
  | .Sub =>
    match st.stack with
    | b :: a :: rest =>
      match a.to_number, b.to_number with
      | some a_num, some b_num =>
        .ok (push { st with stack := rest } (.number (a_num - b_num)))
      | _, _ => .error "Cannot subtract non-numeric values"
    | _ => .error "Not enough operands for subtraction"
  | .Mul =>
    match st.stack with
    | b :: a :: rest =>
      match a.to_number, b.to_number with
      | some a_num, some b_num =>
        .ok (push { st with stack := rest } (.number (a_num * b_num)))
      | _, _ => .error "Cannot multiply non-numeric values"
    | _ => .error "Not enough operands for multiplication"
  | .Div =>
    match st.stack with
    | b :: a :: rest =>
      match a.to_number, b.to_number with
      | some a_num, some b_num =>
        if b_num = 0 then .error "Division by zero"
        else .ok (push { st with stack := rest } (.number (a_num / b_num)))
      | _, _ => .error "Cannot divide non-numeric values"
    | _ => .error "Not enough operands for division"
  | .LoadLocal index =>
    match st.call_stack with
    | frame :: _ =>
      if h : index < frame.locals.length then
        .ok (push st frame.locals[index])
      else
        .ok (push st .nil)
    | [] => .error "No call frame for local variable"
  | .StoreLocal index =>
    match st.stack with
    | value :: rest =>
      match st.call_stack with
      | frame :: frames =>
        .ok { st with
              stack := rest,
              call_stack :=
                { frame with locals := localsSet frame.locals index value }
                  :: frames }
      | [] => .error "No call frame for local variable"
    | [] => .error "Stack underflow"
  | .Neg =>
    match st.stack with
    | operand :: rest =>
      match operand.to_number with
      | some n => .ok (push { st with stack := rest } (.number (-n)))
      | none => .error "Cannot negate non-numeric value"
    | [] => .error "Not enough operands for negation"
  | .Mod =>
    match st.stack with
    | b :: a :: rest =>
      match a.to_number, b.to_number with
      | some a_num, some b_num =>
        if b_num = 0 then .error "Modulo by zero"
        else .ok (push { st with stack := rest } (.number (fRem a_num b_num)))
      | _, _ => .error "Cannot take modulo of non-numeric values"
    | _ => .error "Not enough operands for modulo"
  | .Pow =>
    match st.stack with
    | b :: a :: rest =>
      match a.to_number, b.to_number with
      | some a_num, some b_num =>
        .ok (push { st with stack := rest } (.number (fPow a_num b_num)))
      | _, _ => .error "Cannot raise non-numeric values to power"
    | _ => .error "Not enough operands for power"
  | .Equal =>
    match st.stack with
    | b :: a :: rest =>
      .ok (push { st with stack := rest } (.boolean (Value.beq a b)))
    | _ => .error "Not enough operands for equality"
  | .NotEqual =>
    match st.stack with
    | b :: a :: rest =>
      .ok (push { st with stack := rest } (.boolean (!Value.beq a b)))
    | _ => .error "Not enough operands for inequality"
  | .Less =>
    match st.stack with
    | b :: a :: rest =>
      match a.to_number, b.to_number with
      | some a_num, some b_num =>
        .ok (push { st with stack := rest } (.boolean (decide (a_num < b_num))))
      | _, _ => .error "Cannot compare non-numeric values"
    | _ => .error "Not enough operands for less than"
  | .LessEqual =>
    match st.stack with
    | b :: a :: rest =>
      match a.to_number, b.to_number with
      | some a_num, some b_num =>
        .ok (push { st with stack := rest } (.boolean (decide (a_num ≤ b_num))))
      | _, _ => .error "Cannot compare non-numeric values"
    | _ => .error "Not enough operands for less than or equal"
  | .Greater =>
    match st.stack with
    | b :: a :: rest =>
      match a.to_number, b.to_number with
      | some a_num, some b_num =>
        .ok (push { st with stack := rest } (.boolean (decide (b_num < a_num))))
      | _, _ => .error "Cannot compare non-numeric values"
    | _ => .error "Not enough operands for greater than"
  | .GreaterEqual =>
    match st.stack with
    | b :: a :: rest =>
      match a.to_number, b.to_number with
      | some a_num, some b_num =>
        .ok (push { st with stack := rest } (.boolean (decide (b_num ≤ a_num))))
      | _, _ => .error "Cannot compare non-numeric values"
    | _ => .error "Not enough operands for greater than or equal"
  | .And =>
    match st.stack with
    | b :: a :: rest =>
      .ok (push { st with stack := rest }
        (.boolean (a.is_truthy && b.is_truthy)))
    | _ => .error "Not enough operands for logical and"
  | .Or =>
    match st.stack with
    | b :: a :: rest =>
      .ok (push { st with stack := rest }
        (.boolean (a.is_truthy || b.is_truthy)))
    | _ => .error "Not enough operands for logical or"
  | .Not =>
    match st.stack with
    | operand :: rest =>
      .ok (push { st with stack := rest } (.boolean (!operand.is_truthy)))
    | [] => .error "Not enough operands for logical not"
  | .Concat =>
    match st.stack with
    | b :: a :: rest =>
      .ok (push { st with stack := rest }
        (.string (a.to_string ++ b.to_string)))
    | _ => .error "Not enough operands for concatenation"
  | .Jump target => .ok (withTopFrame st (fun f => { f with pc := target }))
  | .JumpIfFalse target =>
    match st.stack with
    | condition :: rest =>
      let st := { st with stack := rest }
      if !condition.is_truthy then
        .ok (withTopFrame st (fun f => { f with pc := target }))
      else .ok st
    | [] => .error "Stack underflow for jump condition"
  | .JumpIfTrue target =>
    match st.stack with
    | condition :: rest =>
      let st := { st with stack := rest }
      if condition.is_truthy then
        .ok (withTopFrame st (fun f => { f with pc := target }))
      else .ok st
    | [] => .error "Stack underflow for jump condition"
  | _ => .error "Unimplemented instruction"

/-- Is the fetched instruction one of the three jumps (whose execution owns
the program counter)? -/
def isJumpInstr : Instruction → Bool
  | .Jump _ | .JumpIfFalse _ | .JumpIfTrue _ => true
  | _ => false

/-- The `break`-time result of `execute_with_jit`:
`Ok(self.stack.pop().unwrap_or(Value::Nil))`, paired with the runtime state
it leaves behind. -/
def finishRun (st : LuaJitRuntime) : Value × LuaJitRuntime :=
  match st.stack with
  | v :: rest => (v, { st with stack := rest })
  | [] => (.nil, st)

/-- The execution loop of `execute_with_jit`, with explicit fuel (`none` =
fuel exhausted, i.e. the Rust loop has not terminated within `fuel`
iterations).  Besides the source-faithful result and final state, the model
returns the list of program counters whose instructions were dispatched — a
ghost observation used only to state profiling claims; no computed result
depends on it. -/
def run_loop (builtins : BuiltinTable) :
    Nat → LuaJitRuntime →
      Option (Except String (Value × LuaJitRuntime) × List Nat)
  | 0, _ => none
  | fuel + 1, st =>
    match st.call_stack with
    | [] => some (.ok (finishRun st), [])
    | frame :: rest =>
      if h : frame.pc < frame.chunk.instructions.length then
        let instruction := frame.chunk.instructions[frame.pc]
        let should_increment_pc := !isJumpInstr instruction
        match execute_instruction builtins instruction st with
        | .error e => some (.error e, [frame.pc])
        | .ok st' =>
          let st'' :=
            if should_increment_pc then
              withTopFrame st' (fun f => { f with pc := f.pc + 1 })
            else st'
          match run_loop builtins fuel st'' with
          | none => none
          | some (r, tr) => some (r, frame.pc :: tr)
      else
        let st' := { st with call_stack := rest }
        if rest.isEmpty then some (.ok (finishRun st'), [])
        else run_loop builtins fuel st'

/-- `execute_with_jit` (the `JitEnabled` impl in `runtime.rs`): push a fresh
frame for the chunk, clear the operand stack and run the loop.  The borrowed
`_jit` argument is *ignored by the source* (kept here for fidelity). -/
def execute_with_jit (builtins : BuiltinTable) (fuel : Nat)
    (st : LuaJitRuntime) (chunk : Chunk) (_jit : JitCompiler) :
    Option (Except String (Value × LuaJitRuntime) × List Nat) :=
  let frame : CallFrame := ⟨chunk, 0, []⟩
  let st := { st with call_stack := frame :: st.call_stack, stack := [] }
  run_loop builtins fuel st

/-- One `if let Some((id, _)) = stdlib.get_function(full) { insert short }`
step of `add_builtins`. -/
def builtinEntry (t : List (String × Value)) (short full : String) :
    List (String × Value) :=
  match get_function full with
  | some id => alistInsert t short (.function id)
  | none => t

/-- `LuaJitRuntime::add_builtins`: `print`, the `math` table and the
`string` table. -/
def add_builtins (globals : List (String × Value)) : List (String × Value) :=
  let g := alistInsert globals "print" (.function 0)
  let math_table := builtinEntry [] "abs" "math.abs"
  let math_table := builtinEntry math_table "sqrt" "math.sqrt"
  let math_table := builtinEntry math_table "max" "math.max"
  let math_table := builtinEntry math_table "min" "math.min"
  let g := alistInsert g "math" (.table math_table)
  let string_table := builtinEntry [] "len" "string.len"
  let string_table := builtinEntry string_table "sub" "string.sub"
  let string_table := builtinEntry string_table "upper" "string.upper"
  let string_table := builtinEntry string_table "lower" "string.lower"
  let string_table := builtinEntry string_table "char" "string.char"
  let string_table := builtinEntry string_table "byte" "string.byte"
  alistInsert g "string" (.table string_table)

/-- `LuaJitRuntime::new`. -/
def LuaJitRuntime.new : LuaJitRuntime :=
  { globals := add_builtins []
    stack := []
    call_stack := []
    jit_compiler := JitCompiler.new }

/-! ## Lexer (`lexer.rs`)

The lexer's `while` loops are modelled with explicit fuel; every loop
iteration that continues advances `position`, so `input.length + 1` units of
fuel always suffice, and the fuel-exhausted branches (tagged `unreachable`)
can never be taken.  Rust's Unicode `char::is_alphanumeric` /
`is_alphabetic` are modelled by their ASCII restrictions (`Char.isAlphanum`
etc.); every program verified below is ASCII. -/

/-- `TokenType` from `lexer.rs`. -/
inductive TokenType where
  | Number (n : ℚ)
  | String (s : String)
  | Identifier (name : String)
  | Local | Function | End | If | Then | Else | While | Do | For | In
  | Return | Break | True | False | Nil
  | Plus | Minus | Star | Slash | Percent | Caret
  | Equal | NotEqual | Less | LessEqual | Greater | GreaterEqual
  | And | Or | Not | Assign
  | LeftParen | RightParen | LeftBrace | RightBrace
  | LeftBracket | RightBracket
  | Comma | Semicolon | Dot | DotDot
  | Eof | Newline
deriving Repr, Inhabited

/-- `Token` from `lexer.rs`. -/
structure Token where
  token_type : TokenType
  line : Nat
  column : Nat
deriving Repr, Inhabited

/-- `Lexer` state from `lexer.rs`. -/
structure Lexer where
  input : List Char
  position : Nat
  line : Nat
  column : Nat
deriving Repr, Inhabited

/-- `Lexer::new`. -/
def Lexer.mk0 (input : String) : Lexer := ⟨input.toList, 0, 1, 1⟩

/-- `Lexer::is_at_end`. -/
def Lexer.is_at_end (lx : Lexer) : Bool := lx.input.length ≤ lx.position

/-- `Lexer::peek` (`'\0'` at the end). -/
def Lexer.peek (lx : Lexer) : Char :=
  if lx.is_at_end then Char.ofNat 0 else lx.input.getD lx.position (Char.ofNat 0)

/-- `Lexer::peek_next`. -/
def Lexer.peek_next (lx : Lexer) : Option Char :=
  if lx.input.length ≤ lx.position + 1 then none
  else some (lx.input.getD (lx.position + 1) (Char.ofNat 0))

/-- `Lexer::advance`.  All source call sites are reached only in bounds (a
Rust out-of-bounds index would panic); the default character is never
produced. -/
def Lexer.advance (lx : Lexer) : Char × Lexer :=
  (lx.input.getD lx.position (Char.ofNat 0),
    { lx with position := lx.position + 1, column := lx.column + 1 })

/-- `Lexer::match_char`. -/
def Lexer.match_char (lx : Lexer) (expected : Char) : Bool × Lexer :=
  if lx.is_at_end || lx.input.getD lx.position (Char.ofNat 0) ≠ expected then
    (false, lx)
  else
    (true, { lx with position := lx.position + 1, column := lx.column + 1 })

/-- The comment-skipping inner loop of `Lexer::skip_whitespace`
(`while !at_end && peek != newline`). -/
def skip_comment : Nat → Lexer → Lexer
  | 0, lx => lx
  | fuel + 1, lx =>
    if !lx.is_at_end && lx.peek ≠ '\n' then
      skip_comment fuel (lx.advance).2
    else lx

/-- `Lexer::skip_whitespace`. -/
def skip_whitespace : Nat → Lexer → Lexer
  | 0, lx => lx
  | fuel + 1, lx =>
    if lx.is_at_end then lx
    else
      match lx.peek with
      | ' ' | '\r' | '\t' => skip_whitespace fuel (lx.advance).2
      | '-' =>
        if lx.peek_next = some '-' then
          skip_whitespace fuel (skip_comment fuel lx)
        else lx
      | _ => lx

/-- The scanning loop of `Lexer::string_literal`. -/
def string_lit_loop (quote : Char) :
    Nat → Lexer → List Char → Except String (TokenType × Lexer)
  | 0, _, _ => .error "unreachable: lexer fuel exhausted"
  | fuel + 1, lx, acc =>
    if !lx.is_at_end && lx.peek ≠ quote then
      let lx :=
        if lx.peek = '\n' then { lx with line := lx.line + 1, column := 0 }
        else lx
      let (c, lx) := lx.advance
      string_lit_loop quote fuel lx (acc ++ [c])
    else if lx.is_at_end then .error "Unterminated string"
    else .ok (.String (String.mk acc), (lx.advance).2)

/-- `Lexer::string_literal`. -/
def string_literal (lx : Lexer) (quote : Char) :
    Except String (TokenType × Lexer) :=
  string_lit_loop quote (lx.input.length + 1) lx []

/-- The digits-and-dots loop of `Lexer::number_literal`. -/
def number_scan : Nat → Lexer → Lexer
  | 0, lx => lx
  | fuel + 1, lx =>
    if !lx.is_at_end && (isDigitChar lx.peek || lx.peek = '.') then
      number_scan fuel (lx.advance).2
    else lx

/-- `Lexer::number_literal` (the first digit is at `start = position - 1`
when the scan begins). -/
def number_literal (lx : Lexer) (start : Nat) :
    Except String (TokenType × Lexer) :=
  let lx := number_scan (lx.input.length + 1) lx
  let number_str :=
    String.mk ((lx.input.drop start).take (lx.position - start))
  match parseF64 number_str with
  | some n => .ok (.Number n, lx)
  | none => .error ("Invalid number: " ++ number_str)

/-- Keyword table of `Lexer::identifier_or_keyword`. -/
def keyword_of (text : String) : TokenType :=
  if text = "local" then .Local
  else if text = "function" then .Function
  else if text = "end" then .End
  else if text = "if" then .If
  else if text = "then" then .Then
  else if text = "else" then .Else
  else if text = "while" then .While
  else if text = "do" then .Do
  else if text = "for" then .For
  else if text = "in" then .In
  else if text = "return" then .Return
  else if text = "break" then .Break
  else if text = "true" then .True
  else if text = "false" then .False
  else if text = "nil" then .Nil
  else if text = "and" then .And
  else if text = "or" then .Or
  else if text = "not" then .Not
  else .Identifier text

/-- The alphanumeric/underscore loop of `Lexer::identifier_or_keyword`. -/
def ident_scan : Nat → Lexer → Lexer
  | 0, lx => lx
  | fuel + 1, lx =>
    if !lx.is_at_end && (lx.peek.isAlphanum || lx.peek = '_') then
      ident_scan fuel (lx.advance).2
    else lx

/-- `Lexer::identifier_or_keyword`. -/
def identifier_or_keyword (lx : Lexer) (start : Nat) :
    Except String (TokenType × Lexer) :=
  let lx := ident_scan (lx.input.length + 1) lx
  let text := String.mk ((lx.input.drop start).take (lx.position - start))
  .ok (keyword_of text, lx)

/-- The dispatch of `Lexer::next_token` after the initial `advance` (the
character consumed, the lexer state after it, and the token's start
position). -/
def next_token_type (ch : Char) (lx : Lexer)
    (start_line start_column : Nat) : Except String (TokenType × Lexer) :=
    if ch = '+' then .ok (.Plus, lx)
    else if ch = '-' then .ok (.Minus, lx)
    else if ch = '*' then .ok (.Star, lx)
    else if ch = '/' then .ok (.Slash, lx)
    else if ch = '%' then .ok (.Percent, lx)
    else if ch = '^' then .ok (.Caret, lx)
    else if ch = '(' then .ok (.LeftParen, lx)
    else if ch = ')' then .ok (.RightParen, lx)
    else if ch = '\x7b' then .ok (.LeftBrace, lx)
    else if ch = '\x7d' then .ok (.RightBrace, lx)
    else if ch = '[' then .ok (.LeftBracket, lx)
    else if ch = ']' then .ok (.RightBracket, lx)
    else if ch = ',' then .ok (.Comma, lx)
    else if ch = ';' then .ok (.Semicolon, lx)
    else if ch = '.' then
      if lx.peek = '.' then .ok (.DotDot, (lx.advance).2)
      else .ok (.Dot, lx)
    else if ch = '\n' then .ok (.Newline, lx)
    else if ch = '=' then
      match lx.match_char '=' with
      | (true, lx) => .ok (.Equal, lx)
      | (false, lx) => .ok (.Assign, lx)
    else if ch = '~' then
      match lx.match_char '=' with
      | (true, lx) => .ok (.NotEqual, lx)
      | (false, _) =>
        .error ("Unexpected character at " ++ natDigits start_line ++ ":"
          ++ natDigits start_column)
    else if ch = '<' then
      match lx.match_char '=' with
      | (true, lx) => .ok (.LessEqual, lx)
      | (false, lx) => .ok (.Less, lx)
    else if ch = '>' then
      match lx.match_char '=' with
      | (true, lx) => .ok (.GreaterEqual, lx)
      | (false, lx) => .ok (.Greater, lx)
    else if ch = '"' || ch = '\'' then string_literal lx ch
    else if isDigitChar ch then number_literal lx (lx.position - 1)
    else if ch.isAlpha || ch = '_' then identifier_or_keyword lx (lx.position - 1)
    else
      .error ("Unexpected character at " ++ natDigits start_line ++ ":"
        ++ natDigits start_column)

/-- `Lexer::next_token`: consume one character and dispatch, producing a
token stamped with its start position. -/
def next_token (lx : Lexer) : Except String (Token × Lexer) :=
  let start_line := lx.line
  let start_column := lx.column
  let (ch, lx) := lx.advance
  match next_token_type ch lx start_line start_column with
  | .error e => .error e
  | .ok (tt, lx) => .ok (⟨tt, start_line, start_column⟩, lx)

/-- The main loop of `Lexer::tokenize`. -/
def tokenize_loop :
    Nat → Lexer → List Token → Except String (List Token × Lexer)
  | 0, _, _ => .error "unreachable: lexer fuel exhausted"
  | fuel + 1, lx, acc =>
    if lx.is_at_end then .ok (acc, lx)
    else
      let lx := skip_whitespace (lx.input.length + 1) lx
      if lx.is_at_end then .ok (acc, lx)
      else
        match next_token lx with
        | .error e => .error e
        | .ok (token, lx') => tokenize_loop fuel lx' (acc ++ [token])

/-- `Lexer::tokenize`: scan every token, then append the `Eof` token. -/
def tokenize (source : String) : Except String (List Token) :=
  let lx := Lexer.mk0 source
  match tokenize_loop (lx.input.length + 1) lx [] with
  | .error e => .error e
  | .ok (tokens, lx) =>
    .ok (tokens ++ [⟨.Eof, lx.line, lx.column⟩])

/-! ## Parser (`parser.rs`)

Recursive descent with explicit fuel shared by the whole mutual block (the
Rust recursion is bounded by the token list; `none`-style fuel exhaustion is
the tagged `unreachable` error below and never fires for the programs
evaluated in this development). -/

/-- `Parser` state from `parser.rs`. -/
structure Parser where
  tokens : List Token
  current : Nat
deriving Repr, Inhabited

/-- `Parser::new`. -/
def Parser.mk0 (tokens : List Token) : Parser := ⟨tokens, 0⟩

/-- `Parser::peek`. -/
def Parser.peekT (p : Parser) : Option TokenType :=
  (p.tokens[p.current]?).map (·.token_type)

/-- `Parser::is_at_end`. -/
def Parser.is_at_end (p : Parser) : Bool :=
  match p.peekT with
  | some .Eof => true
  | none => true
  | _ => false

/-- A distinct code per `TokenType` constructor: the model of
`std::mem::discriminant`. -/
def discTag : TokenType → Nat
  | .Number _ => 0
  | .String _ => 1
  | .Identifier _ => 2
  | .Local => 3
  | .Function => 4
  | .End => 5
  | .If => 6
  | .Then => 7
  | .Else => 8
  | .While => 9
  | .Do => 10
  | .For => 11
  | .In => 12
  | .Return => 13
  | .Break => 14
  | .True => 15
  | .False => 16
  | .Nil => 17
  | .Plus => 18
  | .Minus => 19
  | .Star => 20
  | .Slash => 21
  | .Percent => 22
  | .Caret => 23
  | .Equal => 24
  | .NotEqual => 25
  | .Less => 26
  | .LessEqual => 27
  | .Greater => 28
  | .GreaterEqual => 29
  | .And => 30
  | .Or => 31
  | .Not => 32
  | .Assign => 33
  | .LeftParen => 34
  | .RightParen => 35
  | .LeftBrace => 36
  | .RightBrace => 37
  | .LeftBracket => 38
  | .RightBracket => 39
  | .Comma => 40
  | .Semicolon => 41
  | .Dot => 42
  | .DotDot => 43
  | .Eof => 44
  | .Newline => 45

/-- Same-constructor comparison (`mem::discriminant(a) ==
mem::discriminant(b)`). -/
def discEq (a b : TokenType) : Bool := discTag a = discTag b

/-- `Parser::check`. -/
def Parser.check (p : Parser) (token_type : TokenType) : Bool :=
  if p.is_at_end then false
  else
    match p.peekT with
    | some t => discEq t token_type
    | none => false

/-- `Parser::advance` (post-increment; returns the consumed token type). -/
def Parser.advanceP (p : Parser) : Option TokenType × Parser :=
  if !p.is_at_end then
    ((p.tokens[p.current]?).map (·.token_type),
      { p with current := p.current + 1 })
  else (none, p)

/-- `Parser::match_types`: try each type in order; on the first `check`
success consume the token. -/
def Parser.match_types (p : Parser) (types : List TokenType) : Bool × Parser :=
  match types with
  | [] => (false, p)
  | t :: rest =>
    if p.check t then (true, (p.advanceP).2) else p.match_types rest

/-- The token-to-operator table of `Parser::match_binary_op`
(`none` corresponds to the `unreachable!` arm, which no call site can
reach). -/
def binOpOf : TokenType → Option BinaryOp
  | .Plus => some .Add
  | .Minus => some .Sub
  | .Star => some .Mul
  | .Slash => some .Div
  | .Percent => some .Mod
  | .Caret => some .Pow
  | .Equal => some .Equal
  | .NotEqual => some .NotEqual
  | .Less => some .Less
  | .LessEqual => some .LessEqual
  | .Greater => some .Greater
  | .GreaterEqual => some .GreaterEqual
  | .And => some .And
  | .Or => some .Or
  | _ => none

/-- `Parser::match_binary_op`. -/
def Parser.match_binary_op (p : Parser) (types : List TokenType) :
    Option BinaryOp × Parser :=
  match types with
  | [] => (none, p)
  | t :: rest =>
    if p.check t then (binOpOf t, (p.advanceP).2)
    else p.match_binary_op rest

/-- The token-to-operator table of `Parser::match_unary_op`. -/
def unOpOf : TokenType → Option UnaryOp
  | .Not => some .Not
  | .Minus => some .Minus
  | _ => none

/-- `Parser::match_unary_op`. -/
def Parser.match_unary_op (p : Parser) (types : List TokenType) :
    Option UnaryOp × Parser :=
  match types with
  | [] => (none, p)
  | t :: rest =>
    if p.check t then (unOpOf t, (p.advanceP).2)
    else p.match_unary_op rest

/-- `Parser::consume`. -/
def Parser.consume (p : Parser) (token_type : TokenType) (message : String) :
    Except String Parser :=
  if p.check token_type then .ok (p.advanceP).2 else .error message

/-- `Parser::consume_identifier`. -/
def Parser.consume_identifier (p : Parser) (message : String) :
    Except String (String × Parser) :=
  match p.tokens[p.current]? with
  | some token =>
    match token.token_type with
    | .Identifier name => .ok (name, (p.advanceP).2)
    | _ => .error message
  | none => .error message

/-- `Parser::check_assignment`: look one token ahead for `=` after an
identifier (the Rust code saves and restores `current`; the model simply
checks at `current + 1`). -/
def Parser.check_assignment (p : Parser) : Bool :=
  match p.peekT with
  | some (.Identifier _) => Parser.check { p with current := p.current + 1 } .Assign
  | _ => false

mutual

/-- `Parser::statement`. -/
def statement : Nat → Parser → Except String (Stmt × Parser)
  | 0, _ => .error "unreachable: parser fuel exhausted"
  | fuel + 1, p =>
    match p.match_types [.Local] with
    | (true, p) => local_assignment fuel p
    | (false, p) =>
    match p.match_types [.Function] with
    | (true, p) => function_declaration fuel p
    | (false, p) =>
    match p.match_types [.If] with
    | (true, p) => if_statement fuel p
    | (false, p) =>
    match p.match_types [.While] with
    | (true, p) => while_statement fuel p
    | (false, p) =>
    match p.match_types [.For] with
    | (true, p) => for_statement fuel p
    | (false, p) =>
    match p.match_types [.Return] with
    | (true, p) => return_statement fuel p
    | (false, p) =>
    match p.match_types [.Break] with
    | (true, p) => .ok (.Break, p)
    | (false, p) =>
      if p.check_assignment then assignment fuel p
      else do
        let (e, p) ← expression fuel p
        .ok (.Expression e, p)

/-- The `while match Comma { another identifier }` loops of
`local_assignment` and `function_declaration` (the error message differs
per call site). -/
def ident_comma_loop (message : String) :
    Nat → Parser → List String → Except String (List String × Parser)
  | 0, _, _ => .error "unreachable: parser fuel exhausted"
  | fuel + 1, p, acc =>
    match p.match_types [.Comma] with
    | (true, p) => do
      let (name, p) ← p.consume_identifier message
      ident_comma_loop message fuel p (acc ++ [name])
    | (false, p) => .ok (acc, p)

/-- The `while match Comma { another expression }` loops of
`local_assignment` and `finish_call`. -/
def expr_comma_loop :
    Nat → Parser → List Expr → Except String (List Expr × Parser)
  | 0, _, _ => .error "unreachable: parser fuel exhausted"
  | fuel + 1, p, acc =>
    match p.match_types [.Comma] with
    | (true, p) => do
      let (e, p) ← expression fuel p
      expr_comma_loop fuel p (acc ++ [e])
    | (false, p) => .ok (acc, p)

/-- `Parser::local_assignment`. -/
def local_assignment : Nat → Parser → Except String (Stmt × Parser)
  | 0, _ => .error "unreachable: parser fuel exhausted"
  | fuel + 1, p => do
    let (name, p) ← p.consume_identifier "Expected variable name"
    let (names, p) ← ident_comma_loop "Expected variable name" fuel p [name]
    match p.match_types [.Assign] with
    | (true, p) => do
      let (v, p) ← expression fuel p
      let (values, p) ← expr_comma_loop fuel p [v]
      .ok (.LocalAssignment names values, p)
    | (false, p) => .ok (.LocalAssignment names [], p)

/-- The statement loop of blocks terminated by `end`
(`function_declaration`, `while_statement`, `for_statement` and the else
branch of `if_statement`). -/
def block_until_end :
    Nat → Parser → List Stmt → Except String (List Stmt × Parser)
  | 0, _, _ => .error "unreachable: parser fuel exhausted"
  | fuel + 1, p, acc =>
    if !p.check .End && !p.is_at_end then
      match p.match_types [.Newline] with
      | (true, p) => block_until_end fuel p acc
      | (false, p) => do
        let (s, p) ← statement fuel p
        block_until_end fuel p (acc ++ [s])
    else .ok (acc, p)

/-- The then-branch statement loop of `if_statement` (stops at `else` or
`end`). -/
def block_until_else_or_end :
    Nat → Parser → List Stmt → Except String (List Stmt × Parser)
  | 0, _, _ => .error "unreachable: parser fuel exhausted"
  | fuel + 1, p, acc =>
    if !p.check .Else && !p.check .End && !p.is_at_end then
      match p.match_types [.Newline] with
      | (true, p) => block_until_else_or_end fuel p acc
      | (false, p) => do
        let (s, p) ← statement fuel p
        block_until_else_or_end fuel p (acc ++ [s])
    else .ok (acc, p)

/-- `Parser::function_declaration`. -/
def function_declaration : Nat → Parser → Except String (Stmt × Parser)
  | 0, _ => .error "unreachable: parser fuel exhausted"
  | fuel + 1, p => do
    let (name, p) ← p.consume_identifier "Expected function name"
    let p ← p.consume .LeftParen "Expected '(' after function name"
    let (params, p) ←
      if !p.check .RightParen then do
        let (x, p) ← p.consume_identifier "Expected parameter name"
        ident_comma_loop "Expected parameter name" fuel p [x]
      else (pure ([], p) : Except String (List String × Parser))
    let p ← p.consume .RightParen "Expected ')' after parameters"
    let (body, p) ← block_until_end fuel p []
    let p ← p.consume .End "Expected 'end' after function body"
    .ok (.Function name params body, p)

/-- `Parser::if_statement`. -/
def if_statement : Nat → Parser → Except String (Stmt × Parser)
  | 0, _ => .error "unreachable: parser fuel exhausted"
  | fuel + 1, p => do
    let (condition, p) ← expression fuel p
    let p ← p.consume .Then "Expected 'then' after if condition"
    let (then_branch, p) ← block_until_else_or_end fuel p []
    match p.match_types [.Else] with
    | (true, p) => do
      let (else_stmts, p) ← block_until_end fuel p []
      let p ← p.consume .End "Expected 'end' after if statement"
      .ok (.If condition then_branch (some else_stmts), p)
    | (false, p) => do
      let p ← p.consume .End "Expected 'end' after if statement"
      .ok (.If condition then_branch none, p)

/-- `Parser::while_statement`. -/
def while_statement : Nat → Parser → Except String (Stmt × Parser)
  | 0, _ => .error "unreachable: parser fuel exhausted"
  | fuel + 1, p => do
    let (condition, p) ← expression fuel p
    let p ← p.consume .Do "Expected 'do' after while condition"
    let (body, p) ← block_until_end fuel p []
    let p ← p.consume .End "Expected 'end' after while body"
    .ok (.While condition body, p)

/-- `Parser::for_statement`. -/
def for_statement : Nat → Parser → Except String (Stmt × Parser)
  | 0, _ => .error "unreachable: parser fuel exhausted"
  | fuel + 1, p => do
    let (var, p) ← p.consume_identifier "Expected variable name in for loop"
    let p ← p.consume .Assign "Expected '=' in for loop"
    let (start, p) ← expression fuel p
    let p ← p.consume .Comma "Expected ',' after for loop start"
    let (stop, p) ← expression fuel p
    let (step, p) ←
      match p.match_types [.Comma] with
      | (true, p) => do
        let (e, p) ← expression fuel p
        (pure (some e, p) : Except String (Option Expr × Parser))
      | (false, p) => (pure (none, p) : Except String (Option Expr × Parser))
    let p ← p.consume .Do "Expected 'do' after for loop header"
    let (body, p) ← block_until_end fuel p []
    let p ← p.consume .End "Expected 'end' after for loop body"
    .ok (.For var start stop step body, p)

/-- `Parser::return_statement`. -/
def return_statement : Nat → Parser → Except String (Stmt × Parser)
  | 0, _ => .error "unreachable: parser fuel exhausted"
  | fuel + 1, p =>
    if p.check .Newline || p.is_at_end then .ok (.Return none, p)
    else do
      let (e, p) ← expression fuel p
      .ok (.Return (some e), p)

/-- `Parser::assignment`. -/
def assignment : Nat → Parser → Except String (Stmt × Parser)
  | 0, _ => .error "unreachable: parser fuel exhausted"
  | fuel + 1, p => do
    let (target, p) ← p.consume_identifier "Expected variable name"
    let p ← p.consume .Assign "Expected '=' in assignment"
    let (value, p) ← expression fuel p
    .ok (.Assignment target value, p)

/-- `Parser::expression` (delegates to the `or` rule). -/
def expression : Nat → Parser → Except String (Expr × Parser)
  | 0, _ => .error "unreachable: parser fuel exhausted"
  | fuel + 1, p => expr_or fuel p

/-- `Parser::or`. -/
def expr_or : Nat → Parser → Except String (Expr × Parser)
  | 0, _ => .error "unreachable: parser fuel exhausted"
  | fuel + 1, p => do
    let (e, p) ← expr_and fuel p
    expr_or_loop fuel e p

/-- The `while match Or` loop of `Parser::or`. -/
def expr_or_loop : Nat → Expr → Parser → Except String (Expr × Parser)
  | 0, _, _ => .error "unreachable: parser fuel exhausted"
  | fuel + 1, e, p =>
    match p.match_types [.Or] with
    | (true, p) => do
      let (right, p) ← expr_and fuel p
      expr_or_loop fuel (.Binary e .Or right) p
    | (false, p) => .ok (e, p)

/-- `Parser::and`. -/
def expr_and : Nat → Parser → Except String (Expr × Parser)
  | 0, _ => .error "unreachable: parser fuel exhausted"
  | fuel + 1, p => do
    let (e, p) ← equality fuel p
    expr_and_loop fuel e p

/-- The `while match And` loop of `Parser::and`. -/
def expr_and_loop : Nat → Expr → Parser → Except String (Expr × Parser)
  | 0, _, _ => .error "unreachable: parser fuel exhausted"
  | fuel + 1, e, p =>
    match p.match_types [.And] with
    | (true, p) => do
      let (right, p) ← equality fuel p
      expr_and_loop fuel (.Binary e .And right) p
    | (false, p) => .ok (e, p)

/-- `Parser::equality`. -/
def equality : Nat → Parser → Except String (Expr × Parser)
  | 0, _ => .error "unreachable: parser fuel exhausted"
  | fuel + 1, p => do
    let (e, p) ← comparison fuel p
    equality_loop fuel e p

/-- The operator loop of `Parser::equality`. -/
def equality_loop : Nat → Expr → Parser → Except String (Expr × Parser)
  | 0, _, _ => .error "unreachable: parser fuel exhausted"
  | fuel + 1, e, p =>
    match p.match_binary_op [.Equal, .NotEqual] with
    | (some op, p) => do
      let (right, p) ← comparison fuel p
      equality_loop fuel (.Binary e op right) p
    | (none, p) => .ok (e, p)

/-- `Parser::comparison`. -/
def comparison : Nat → Parser → Except String (Expr × Parser)
  | 0, _ => .error "unreachable: parser fuel exhausted"
  | fuel + 1, p => do
    let (e, p) ← term fuel p
    comparison_loop fuel e p

/-- The operator loop of `Parser::comparison`. -/
def comparison_loop : Nat → Expr → Parser → Except String (Expr × Parser)
  | 0, _, _ => .error "unreachable: parser fuel exhausted"
  | fuel + 1, e, p =>
    match p.match_binary_op [.Greater, .GreaterEqual, .Less, .LessEqual] with
    | (some op, p) => do
      let (right, p) ← term fuel p
      comparison_loop fuel (.Binary e op right) p
    | (none, p) => .ok (e, p)

/-- `Parser::term`. -/
def term : Nat → Parser → Except String (Expr × Parser)
  | 0, _ => .error "unreachable: parser fuel exhausted"
  | fuel + 1, p => do
    let (e, p) ← concat_rule fuel p
    term_loop fuel e p

/-- The operator loop of `Parser::term`. -/
def term_loop : Nat → Expr → Parser → Except String (Expr × Parser)
  | 0, _, _ => .error "unreachable: parser fuel exhausted"
  | fuel + 1, e, p =>
    match p.match_binary_op [.Plus, .Minus] with
    | (some op, p) => do
      let (right, p) ← concat_rule fuel p
      term_loop fuel (.Binary e op right) p
    | (none, p) => .ok (e, p)

/-- `Parser::concat`. -/
def concat_rule : Nat → Parser → Except String (Expr × Parser)
  | 0, _ => .error "unreachable: parser fuel exhausted"
  | fuel + 1, p => do
    let (e, p) ← factor fuel p
    concat_loop fuel e p

/-- The `while match DotDot` loop of `Parser::concat`. -/
def concat_loop : Nat → Expr → Parser → Except String (Expr × Parser)
  | 0, _, _ => .error "unreachable: parser fuel exhausted"
  | fuel + 1, e, p =>
    match p.match_types [.DotDot] with
    | (true, p) => do
      let (right, p) ← factor fuel p
      concat_loop fuel (.Binary e .Concat right) p
    | (false, p) => .ok (e, p)

/-- `Parser::factor`. -/
def factor : Nat → Parser → Except String (Expr × Parser)
  | 0, _ => .error "unreachable: parser fuel exhausted"
  | fuel + 1, p => do
    let (e, p) ← unary fuel p
    factor_loop fuel e p

/-- The operator loop of `Parser::factor`. -/
def factor_loop : Nat → Expr → Parser → Except String (Expr × Parser)
  | 0, _, _ => .error "unreachable: parser fuel exhausted"
  | fuel + 1, e, p =>
    match p.match_binary_op [.Star, .Slash, .Percent] with
    | (some op, p) => do
      let (right, p) ← unary fuel p
      factor_loop fuel (.Binary e op right) p
    | (none, p) => .ok (e, p)

/-- `Parser::unary`. -/
def unary : Nat → Parser → Except String (Expr × Parser)
  | 0, _ => .error "unreachable: parser fuel exhausted"
  | fuel + 1, p =>
    match p.match_unary_op [.Not, .Minus] with
    | (some op, p) => do
      let (operand, p) ← unary fuel p
      .ok (.Unary op operand, p)
    | (none, p) => power fuel p

/-- `Parser::power`. -/
def power : Nat → Parser → Except String (Expr × Parser)
  | 0, _ => .error "unreachable: parser fuel exhausted"
  | fuel + 1, p => do
    let (e, p) ← call_rule fuel p
    power_loop fuel e p

/-- The `while match Caret` loop of `Parser::power` (right-associative: the
right operand re-enters `unary`). -/
def power_loop : Nat → Expr → Parser → Except String (Expr × Parser)
  | 0, _, _ => .error "unreachable: parser fuel exhausted"
  | fuel + 1, e, p =>
    match p.match_types [.Caret] with
    | (true, p) => do
      let (right, p) ← unary fuel p
      power_loop fuel (.Binary e .Pow right) p
    | (false, p) => .ok (e, p)

/-- `Parser::call`. -/
def call_rule : Nat → Parser → Except String (Expr × Parser)
  | 0, _ => .error "unreachable: parser fuel exhausted"
  | fuel + 1, p => do
    let (e, p) ← primary fuel p
    call_loop fuel e p

/-- The call-or-field-access loop of `Parser::call`. -/
def call_loop : Nat → Expr → Parser → Except String (Expr × Parser)
  | 0, _, _ => .error "unreachable: parser fuel exhausted"
  | fuel + 1, e, p =>
    match p.match_types [.LeftParen] with
    | (true, p) => do
      let (e', p) ← finish_call fuel e p
      call_loop fuel e' p
    | (false, p) =>
      match p.match_types [.Dot] with
      | (true, p) => do
        let (name, p) ← p.consume_identifier "Expected field name after '.'"
        call_loop fuel (.FieldAccess e name) p
      | (false, p) => .ok (e, p)

/-- `Parser::finish_call`. -/
def finish_call : Nat → Expr → Parser → Except String (Expr × Parser)
  | 0, _, _ => .error "unreachable: parser fuel exhausted"
  | fuel + 1, callee, p => do
    let (args, p) ←
      if !p.check .RightParen then do
        let (a, p) ← expression fuel p
        expr_comma_loop fuel p [a]
      else (pure ([], p) : Except String (List Expr × Parser))
    let p ← p.consume .RightParen "Expected ')' after arguments"
    .ok (.Call callee args, p)

/-- `Parser::primary`. -/
def primary : Nat → Parser → Except String (Expr × Parser)
  | 0, _ => .error "unreachable: parser fuel exhausted"
  | fuel + 1, p =>
    match p.advanceP with
    | (some token_type, p) =>
      match token_type with
      | .True => .ok (.Literal (.boolean true), p)
      | .False => .ok (.Literal (.boolean false), p)
      | .Nil => .ok (.Literal .nil, p)
      | .Number n => .ok (.Literal (.number n), p)
      | .String s => .ok (.Literal (.string s), p)
      | .Identifier name => .ok (.Identifier name, p)
      | .LeftParen => do
        let (e, p) ← expression fuel p
        let p ← p.consume .RightParen "Expected ')' after expression"
        .ok (e, p)
      | _ => .error "Unexpected token"
    | (none, _) => .error "Unexpected end of input"

/-- The statement loop of `Parser::parse`. -/
def parse_loop : Nat → Parser → List Stmt → Except String (List Stmt × Parser)
  | 0, _, _ => .error "unreachable: parser fuel exhausted"
  | fuel + 1, p, acc =>
    if p.is_at_end then .ok (acc, p)
    else
      match p.match_types [.Newline] with
      | (true, p) => parse_loop fuel p acc
      | (false, p) => do
        let (s, p) ← statement fuel p
        parse_loop fuel p (acc ++ [s])

end

/-- `Parser::parse`. -/
def parse (fuel : Nat) (tokens : List Token) : Except String Program :=
  match parse_loop fuel (Parser.mk0 tokens) [] with
  | .error e => .error e
  | .ok (statements, _) => .ok ⟨statements⟩

/-! ## End-to-end pipeline (`runtime.rs`, `execute` / `execute_internal`) -/

/-- The `LuaError` variant `execute` produces (`error.rs`): every internal
error message is wrapped by `LuaError::runtime_error(msg)` into
`RuntimeError { message, line: None }`. -/
inductive LuaError where
  | RuntimeError (message : String) (line : Option Nat)
deriving Repr, Inhabited

/-- `LuaError::runtime_error`. -/
def LuaError.runtime_error (message : String) : LuaError :=
  .RuntimeError message none

/-- `LuaJitRuntime::execute_internal`: lex, parse, lower and run.  The
`parseFuel`/`runFuel` arguments bound the parser recursion and interpreter
loop (see the fuel conventions); `none` means the interpreter loop was cut
off by `runFuel`.  The JIT compiler handed to `execute_with_jit` is
`self.jit_compiler.clone()` — and is ignored by `execute_with_jit`. -/
def execute_internal (builtins : BuiltinTable) (parseFuel runFuel : Nat)
    (rt : LuaJitRuntime) (source : String) :
    Option (Except String (Value × LuaJitRuntime) × List Nat) :=
  match tokenize source with
  | .error e => some (.error e, [])
  | .ok tokens =>
    match parse parseFuel tokens with
    | .error e => some (.error e, [])
    | .ok program =>
      match Compiler.compile program with
      | .error e => some (.error e, [])
      | .ok chunk =>
        execute_with_jit builtins runFuel rt chunk rt.jit_compiler

/-- `LuaJitRuntime::execute`: `execute_internal` with the error message
wrapped into `LuaError::runtime_error`. -/
def execute (builtins : BuiltinTable) (parseFuel runFuel : Nat)
    (rt : LuaJitRuntime) (code : String) :
    Option (Except LuaError (Value × LuaJitRuntime) × List Nat) :=
  match execute_internal builtins parseFuel runFuel rt code with
  | none => none
  | some (.ok v, tr) => some (.ok v, tr)
  | some (.error msg, tr) => some (.error (LuaError.runtime_error msg), tr)

/-! ## Specification-side definitions for the jump-patch invariants -/

/-- The branch target of the three jump opcodes the lowering compiler emits
(`Jump` / `JumpIfFalse` / `JumpIfTrue`); `none` for every other opcode. -/
def jumpTargetOf : Instruction → Option Nat
  | .Jump t => some t
  | .JumpIfFalse t => some t
  | .JumpIfTrue t => some t
  | _ => none

/-- Is the instruction a conditional jump? -/
def isCondJump : Instruction → Bool
  | .JumpIfFalse _ => true
  | .JumpIfTrue _ => true
  | _ => false

/-- The compiler-step invariant: the instruction sequence only grows, the
prefix that existed before the step is untouched, and every jump the step
leaves in the new region is in bounds (target at most the new length) and,
when conditional, strictly forward. -/
def StepOk (st st' : Compiler) : Prop :=
  st.chunk.instructions.length ≤ st'.chunk.instructions.length ∧
  (∀ i, i < st.chunk.instructions.length →
    st'.chunk.instructions[i]? = st.chunk.instructions[i]?) ∧
  (∀ i ins t, st.chunk.instructions.length ≤ i →
    st'.chunk.instructions[i]? = some ins → jumpTargetOf ins = some t →
    t ≤ st'.chunk.instructions.length ∧ (isCondJump ins = true → i < t))

/-- `StepOk` with one pending (not yet back-patched) placeholder index
exempted from the jump conditions. -/
def StepOkExc (pending : Nat) (st st' : Compiler) : Prop :=
  st.chunk.instructions.length ≤ st'.chunk.instructions.length ∧
  (∀ i, i < st.chunk.instructions.length →
    st'.chunk.instructions[i]? = st.chunk.instructions[i]?) ∧
  (∀ i ins t, st.chunk.instructions.length ≤ i → i ≠ pending →
    st'.chunk.instructions[i]? = some ins → jumpTargetOf ins = some t →
    t ≤ st'.chunk.instructions.length ∧ (isCondJump ins = true → i < t))

/-! ## Lemmas: compiler-step invariants -/

theorem StepOk.rfl (st : Compiler) : StepOk st st := by
  refine ⟨le_refl _, fun _ _ => Eq.refl _, fun i ins t hi hins _ => ?_⟩
  have hlt := (List.getElem?_eq_some_iff.mp hins).1
  exact absurd hlt (by omega)

theorem StepOk.trans {a b c : Compiler} (h₁ : StepOk a b) (h₂ : StepOk b c) :
    StepOk a c := by
  obtain ⟨m₁, p₁, r₁⟩ := h₁
  obtain ⟨m₂, p₂, r₂⟩ := h₂
  refine ⟨le_trans m₁ m₂, fun i hi => ?_, fun i ins t hi hins ht => ?_⟩
  · exact (p₂ i (lt_of_lt_of_le hi m₁)).trans (p₁ i hi)
  · by_cases hib : i < b.chunk.instructions.length
    · have hpre := p₂ i hib
      rw [hpre] at hins
      obtain ⟨hb, hf⟩ := r₁ i ins t hi hins ht
      exact ⟨le_trans hb m₂, hf⟩
    · exact r₂ i ins t (by omega) hins ht

theorem StepOkExc_of_StepOk {e : Nat} {a b : Compiler} (h : StepOk a b) :
    StepOkExc e a b :=
  ⟨h.1, h.2.1, fun i ins t hi _ hins ht => h.2.2 i ins t hi hins ht⟩

theorem StepOk_trans_exc {e : Nat} {a b c : Compiler}
    (h₁ : StepOk a b) (h₂ : StepOkExc e b c) : StepOkExc e a c := by
  obtain ⟨m₁, p₁, r₁⟩ := h₁
  obtain ⟨m₂, p₂, r₂⟩ := h₂
  refine ⟨le_trans m₁ m₂, fun i hi => ?_, fun i ins t hi hne hins ht => ?_⟩
  · exact (p₂ i (lt_of_lt_of_le hi m₁)).trans (p₁ i hi)
  · by_cases hib : i < b.chunk.instructions.length
    · have hpre := p₂ i hib
      rw [hpre] at hins
      obtain ⟨hb, hf⟩ := r₁ i ins t hi hins ht
      exact ⟨le_trans hb m₂, hf⟩
    · exact r₂ i ins t (by omega) hne hins ht

theorem StepOkExc_trans {e : Nat} {a b c : Compiler}
    (h₁ : StepOkExc e a b) (h₂ : StepOk b c) : StepOkExc e a c := by
  obtain ⟨m₁, p₁, r₁⟩ := h₁
  obtain ⟨m₂, p₂, r₂⟩ := h₂
  refine ⟨le_trans m₁ m₂, fun i hi => ?_, fun i ins t hi hne hins ht => ?_⟩
  · exact (p₂ i (lt_of_lt_of_le hi m₁)).trans (p₁ i hi)
  · by_cases hib : i < b.chunk.instructions.length
    · have hpre := p₂ i hib
      rw [hpre] at hins
      obtain ⟨hb, hf⟩ := r₁ i ins t hi hne hins ht
      exact ⟨le_trans hb m₂, hf⟩
    · exact r₂ i ins t (by omega) hins ht

theorem emitI_instructions (st : Compiler) (i : Instruction) :
    (st.emitI i).chunk.instructions = st.chunk.instructions ++ [i] := Eq.refl _

theorem StepOk_emitI (st : Compiler) (ins : Instruction)
    (h : ∀ t, jumpTargetOf ins = some t →
      t ≤ st.chunk.instructions.length + 1 ∧
        (isCondJump ins = true → st.chunk.instructions.length < t)) :
    StepOk st (st.emitI ins) := by
  refine ⟨?_, fun i hi => ?_, fun i ins' t hi hins ht => ?_⟩
  · rw [emitI_instructions]
    simp
  · rw [emitI_instructions]
    exact List.getElem?_append_left hi
  · rw [emitI_instructions] at hins
    rcases Nat.lt_or_ge i (st.chunk.instructions.length + 1) with hlt | hge
    · have hieq : i = st.chunk.instructions.length := by omega
      subst hieq
      rw [List.getElem?_concat_length] at hins
      cases hins
      have := h t ht
      rw [emitI_instructions]
      simp only [List.length_append, List.length_cons, List.length_nil]
      exact ⟨by omega, fun hc => (this.2 hc)⟩
    · rw [List.getElem?_eq_none (by simp; omega)] at hins
      cases hins

theorem StepOk_emitI_nonjump (st : Compiler) (ins : Instruction)
    (h : jumpTargetOf ins = none) : StepOk st (st.emitI ins) :=
  StepOk_emitI st ins (fun t ht => by rw [h] at ht; cases ht)

theorem StepOkExc_emit_placeholder (st : Compiler) (ins : Instruction) :
    StepOkExc st.chunk.instructions.length st (st.emitI ins) := by
  refine ⟨?_, fun i hi => ?_, fun i ins' t hi hne hins ht => ?_⟩
  · rw [emitI_instructions]; simp
  · rw [emitI_instructions]
    exact List.getElem?_append_left hi
  · rw [emitI_instructions] at hins
    have hgt : st.chunk.instructions.length < i := by omega
    rw [List.getElem?_eq_none (by simp; omega)] at hins
    cases hins

theorem patch_ok {st st' : Compiler} {e : Nat}
    (h : st.patch e = .ok st') :
    ∃ i i', st.chunk.instructions[e]? = some i ∧
      retarget i st.chunk.instructions.length = some i' ∧
      st'.chunk.instructions = st.chunk.instructions.set e i' ∧
      st'.locals = st.locals ∧
      st'.chunk.constants = st.chunk.constants ∧
      st'.chunk.line_numbers = st.chunk.line_numbers := by
  unfold Compiler.patch at h
  cases hpj : st.chunk.patch_jump e with
  | none => rw [hpj] at h; cases h
  | some c =>
    rw [hpj] at h
    cases h
    unfold Chunk.patch_jump at hpj
    split at hpj
    · cases hpj
    next i hget =>
      split at hpj
      · cases hpj
      next i' hre =>
        cases hpj
        exact ⟨i, i', hget, hre, rfl, rfl, rfl, rfl⟩

theorem retarget_some {i i' : Instruction} {n : Nat}
    (h : retarget i n = some i') :
    jumpTargetOf i' = some n ∧ isCondJump i' = isCondJump i ∧
      (jumpTargetOf i).isSome := by
  unfold retarget at h
  cases i <;> simp at h <;> subst h <;>
    simp [jumpTargetOf, isCondJump]

theorem patch_length {st st' : Compiler} {e : Nat} (h : st.patch e = .ok st') :
    st'.chunk.instructions.length = st.chunk.instructions.length := by
  obtain ⟨i, i', _, _, hset, -⟩ := patch_ok h
  rw [hset, List.length_set]

theorem patch_get_ne {st st' : Compiler} {e j : Nat}
    (h : st.patch e = .ok st') (hne : j ≠ e) :
    st'.chunk.instructions[j]? = st.chunk.instructions[j]? := by
  obtain ⟨i, i', _, _, hset, -⟩ := patch_ok h
  rw [hset]
  exact List.getElem?_set_ne (fun hc => hne hc.symm)

theorem patch_get_eq {st st' : Compiler} {e : Nat}
    (h : st.patch e = .ok st') :
    ∃ i i', st.chunk.instructions[e]? = some i ∧
      retarget i st.chunk.instructions.length = some i' ∧
      st'.chunk.instructions[e]? = some i' := by
  obtain ⟨i, i', hget, hre, hset, -⟩ := patch_ok h
  have he : e < st.chunk.instructions.length :=
    (List.getElem?_eq_some_iff.mp hget).1
  exact ⟨i, i', hget, hre, by rw [hset]; exact List.getElem?_set_self he⟩

theorem StepOk_patch {a b c : Compiler} {e : Nat}
    (hbase : a.chunk.instructions.length ≤ e)
    (h₁ : StepOk a b) (hp : b.patch e = .ok c) : StepOk a c := by
  obtain ⟨m₁, p₁, r₁⟩ := h₁
  have hlen := patch_length hp
  refine ⟨by omega, fun i hi => ?_, fun i ins t hi hins ht => ?_⟩
  · rw [patch_get_ne hp (by omega)]
    exact p₁ i hi
  · by_cases hie : i = e
    · subst hie
      obtain ⟨j, j', hgetb, hre, hgetc⟩ := patch_get_eq hp
      rw [hgetc] at hins
      cases hins
      obtain ⟨hjt, -, -⟩ := retarget_some hre
      rw [hjt] at ht
      cases ht
      have hebound : i < b.chunk.instructions.length :=
        (List.getElem?_eq_some_iff.mp hgetb).1
      exact ⟨by omega, fun _ => hebound⟩
    · rw [patch_get_ne hp hie] at hins
      obtain ⟨hb, hf⟩ := r₁ i ins t hi hins ht
      exact ⟨by omega, hf⟩

theorem StepOkExc_patch_repair {a b c : Compiler} {e : Nat}
    (hbase : a.chunk.instructions.length ≤ e)
    (h₁ : StepOkExc e a b) (hp : b.patch e = .ok c) : StepOk a c := by
  obtain ⟨m₁, p₁, r₁⟩ := h₁
  have hlen := patch_length hp
  refine ⟨by omega, fun i hi => ?_, fun i ins t hi hins ht => ?_⟩
  · rw [patch_get_ne hp (by omega)]
    exact p₁ i hi
  · by_cases hie : i = e
    · subst hie
      obtain ⟨j, j', hgetb, hre, hgetc⟩ := patch_get_eq hp
      rw [hgetc] at hins
      cases hins
      obtain ⟨hjt, -, -⟩ := retarget_some hre
      rw [hjt] at ht
      cases ht
      have hebound : i < b.chunk.instructions.length :=
        (List.getElem?_eq_some_iff.mp hgetb).1
      exact ⟨by omega, fun _ => hebound⟩
    · rw [patch_get_ne hp hie] at hins
      obtain ⟨hb, hf⟩ := r₁ i ins t hi hie hins ht
      exact ⟨by omega, hf⟩

theorem eBind_ok {α β : Type} {x : Except String α} {f : α → Except String β}
    {c : β} (h : bind x f = .ok c) : ∃ b, x = .ok b ∧ f b = .ok c := by
  cases x with
  | error e => simp [Bind.bind, Except.bind] at h
  | ok b => exact ⟨b, rfl, by simpa [Bind.bind, Except.bind] using h⟩

theorem binInstr_nonjump (op : BinaryOp) : jumpTargetOf (binInstr op) = none := by
  cases op <;> rfl

theorem unInstr_nonjump (op : UnaryOp) : jumpTargetOf (unInstr op) = none := by
  cases op <;> rfl

mutual

theorem expr_StepOk : ∀ (e : Expr) (st st' : Compiler),
    compile_expression e st = .ok st' → StepOk st st'
  | .Literal v, st, st', h => by
    simp only [compile_expression] at h
    cases h
    exact StepOk_emitI_nonjump st _ rfl
  | .Identifier name, st, st', h => by
    simp only [compile_expression] at h
    split at h <;> (cases h; exact StepOk_emitI_nonjump st _ rfl)
  | .Binary l op r, st, st', h => by
    simp only [compile_expression] at h
    obtain ⟨st₁, h₁, h⟩ := eBind_ok h
    obtain ⟨st₂, h₂, h⟩ := eBind_ok h
    cases h
    exact (expr_StepOk l st st₁ h₁).trans
      ((expr_StepOk r st₁ st₂ h₂).trans
        (StepOk_emitI_nonjump st₂ _ (binInstr_nonjump op)))
  | .Unary op operand, st, st', h => by
    simp only [compile_expression] at h
    obtain ⟨st₁, h₁, h⟩ := eBind_ok h
    cases h
    exact (expr_StepOk operand st st₁ h₁).trans
      (StepOk_emitI_nonjump st₁ _ (unInstr_nonjump op))
  | .Call callee args, st, st', h => by
    simp only [compile_expression] at h
    obtain ⟨st₁, h₁, h⟩ := eBind_ok h
    obtain ⟨st₂, h₂, h⟩ := eBind_ok h
    cases h
    exact (expr_list_StepOk args st st₁ h₁).trans
      ((expr_StepOk callee st₁ st₂ h₂).trans
        (StepOk_emitI_nonjump st₂ _ rfl))
  | .FieldAccess obj field, st, st', h => by
    simp only [compile_expression] at h
    obtain ⟨st₁, h₁, h⟩ := eBind_ok h
    cases h
    exact (expr_StepOk obj st st₁ h₁).trans
      ((StepOk_emitI_nonjump st₁ (.LoadConst (.string field)) rfl).trans
        (StepOk_emitI_nonjump _ .GetIndex rfl))
  | .Index o i, st, st', h => by
    simp only [compile_expression] at h
    exact Except.noConfusion h

theorem expr_list_StepOk : ∀ (es : List Expr) (st st' : Compiler),
    compile_expr_list es st = .ok st' → StepOk st st'
  | [], st, st', h => by
    simp only [compile_expr_list] at h
    cases h
    exact StepOk.rfl st
  | e :: rest, st, st', h => by
    simp only [compile_expr_list] at h
    obtain ⟨st₁, h₁, h⟩ := eBind_ok h
    exact (expr_StepOk e st st₁ h₁).trans (expr_list_StepOk rest st₁ st' h)

end

theorem StepOk_of_instr_eq {st st' : Compiler}
    (h : st'.chunk.instructions = st.chunk.instructions) : StepOk st st' := by
  refine ⟨by rw [h], fun i _ => by rw [h], fun i ins t hi hins _ => ?_⟩
  rw [h] at hins
  have hlt := (List.getElem?_eq_some_iff.mp hins).1
  exact absurd hlt (by omega)

theorem emitI_length (st : Compiler) (i : Instruction) :
    (st.emitI i).chunk.instructions.length =
      st.chunk.instructions.length + 1 := by
  rw [emitI_instructions]
  simp

theorem StepOk_emit_uncond (st : Compiler) (ls : Nat)
    (h : ls ≤ st.chunk.instructions.length) :
    StepOk st (st.emitI (.Jump ls)) := by
  refine StepOk_emitI st _ (fun t ht => ?_)
  simp only [jumpTargetOf, Option.some.injEq] at ht
  subst ht
  exact ⟨by omega, fun hc => by simp [isCondJump] at hc⟩

theorem emitNils_StepOk : ∀ (n : Nat) (st : Compiler),
    StepOk st (emitNils st n)
  | 0, st => by simp only [emitNils]; exact StepOk.rfl st
  | n + 1, st => by
    simp only [emitNils]
    exact (StepOk_emitI_nonjump st (.LoadConst .nil) rfl).trans
      (emitNils_StepOk n _)

theorem store_locals_StepOk : ∀ (names : List String) (st : Compiler),
    StepOk st (store_locals names st)
  | [], st => by simp only [store_locals]; exact StepOk.rfl st
  | n :: rest, st => by
    simp only [store_locals]
    exact ((@StepOk_of_instr_eq _ (st.add_local n) rfl).trans
      (StepOk_emitI_nonjump (st.add_local n)
        (.StoreLocal ((st.add_local n).locals.length - 1)) rfl)).trans
      (store_locals_StepOk rest _)

/-- Assembly of the `For` statement's tail (hidden-step local, header
comparison, conditional exit placeholder, body, increment, back-jump, exit
patch), given the body's own step invariant. -/
theorem for_tail_StepOk (vi ei : Nat) (var : String)
    (st₃ st₅ st' : Compiler)
    (hC : StepOk ((((((st₃.add_local (var ++ "_step")).emitI
        (.StoreLocal ((st₃.add_local (var ++ "_step")).locals.length - 1))).emitI
        (.LoadLocal vi)).emitI (.LoadLocal ei)).emitI .LessEqual).emitI
        (.JumpIfFalse 0)) st₅)
    (hp : (((((st₅.emitI (.LoadLocal vi)).emitI
        (.LoadLocal ((st₃.add_local (var ++ "_step")).locals.length - 1))).emitI
        .Add).emitI (.StoreLocal vi)).emitI
        (.Jump (((st₃.add_local (var ++ "_step")).emitI
          (.StoreLocal ((st₃.add_local (var ++ "_step")).locals.length - 1))).chunk.instructions.length))).patch
        ((((((st₃.add_local (var ++ "_step")).emitI
          (.StoreLocal ((st₃.add_local (var ++ "_step")).locals.length - 1))).emitI
          (.LoadLocal vi)).emitI (.LoadLocal ei)).emitI
          .LessEqual).chunk.instructions.length) = .ok st') :
    StepOk st₃ st' := by
  set A := st₃.add_local (var ++ "_step") with hA
  set B := A.emitI (.StoreLocal (A.locals.length - 1)) with hB
  set C := ((B.emitI (.LoadLocal vi)).emitI (.LoadLocal ei)).emitI .LessEqual
    with hCdef
  have hPre : StepOk st₃ C :=
    (((@StepOk_of_instr_eq _ A rfl).trans
      (StepOk_emitI_nonjump A (.StoreLocal (A.locals.length - 1)) rfl)).trans
      ((StepOk_emitI_nonjump B (.LoadLocal vi) rfl).trans
        (StepOk_emitI_nonjump (B.emitI (.LoadLocal vi)) (.LoadLocal ei) rfl))).trans
      (StepOk_emitI_nonjump ((B.emitI (.LoadLocal vi)).emitI (.LoadLocal ei))
        .LessEqual rfl)
  have hB' := StepOkExc_emit_placeholder C (.JumpIfFalse 0)
  set T := (((st₅.emitI (.LoadLocal vi)).emitI
      (.LoadLocal (A.locals.length - 1))).emitI .Add).emitI
      (.StoreLocal vi) with hT
  have hTail : StepOk st₅ T :=
    (((StepOk_emitI_nonjump st₅ (.LoadLocal vi) rfl).trans
      (StepOk_emitI_nonjump (st₅.emitI (.LoadLocal vi))
        (.LoadLocal (A.locals.length - 1)) rfl)).trans
      (StepOk_emitI_nonjump _ .Add rfl)).trans
      (StepOk_emitI_nonjump _ (.StoreLocal vi) rfl)
  have hJ : StepOk T (T.emitI (.Jump B.chunk.instructions.length)) := by
    refine StepOk_emit_uncond T _ ?_
    have h1 := hC.1
    have h2 := hTail.1
    have h3 : C.chunk.instructions.length =
        B.chunk.instructions.length + 3 := by
      rw [hCdef]
      simp only [emitI_length]
    have h4 : (C.emitI (.JumpIfFalse 0)).chunk.instructions.length =
        C.chunk.instructions.length + 1 := emitI_length _ _
    omega
  have hX : StepOkExc C.chunk.instructions.length C
      (T.emitI (.Jump B.chunk.instructions.length)) :=
    StepOkExc_trans (StepOkExc_trans hB' hC) (hTail.trans hJ)
  exact hPre.trans (StepOkExc_patch_repair (le_refl _) hX hp)

/-- The statement-level compiler invariant, proved by strong induction on
the statement size (jointly with the statement-list form). -/
theorem stmtAux : ∀ (n : Nat),
    (∀ (s : Stmt) (st st' : Compiler), sizeOf s < n →
      compile_statement s st = .ok st' → StepOk st st') ∧
    (∀ (ss : List Stmt) (st st' : Compiler), sizeOf ss < n →
      compile_stmt_list ss st = .ok st' → StepOk st st') := by
  intro n
  induction n with
  | zero =>
    exact ⟨fun s st st' hsz _ => absurd hsz (by omega),
      fun ss st st' hsz _ => absurd hsz (by omega)⟩
  | succ n ih =>
    obtain ⟨ihS, ihL⟩ := ih
    constructor
    · intro s st st' hsz h
      cases s with
      | Expression e =>
        simp only [compile_statement] at h
        obtain ⟨st₁, h₁, hr₁⟩ := eBind_ok h
        cases hr₁
        exact (expr_StepOk e st st₁ h₁).trans
          (StepOk_emitI_nonjump st₁ .Pop rfl)
      | Assignment target value =>
        simp only [compile_statement] at h
        obtain ⟨st₁, h₁, hr₁⟩ := eBind_ok h
        split at hr₁
        next i hres =>
          cases hr₁
          exact (expr_StepOk value st st₁ h₁).trans
            (StepOk_emitI_nonjump st₁ (.StoreLocal i) rfl)
        next hres =>
          cases hr₁
          exact (expr_StepOk value st st₁ h₁).trans
            (StepOk_emitI_nonjump st₁ (.StoreGlobal target) rfl)
      | LocalAssignment names values =>
        simp only [compile_statement] at h
        obtain ⟨st₁, h₁, hr₁⟩ := eBind_ok h
        cases hr₁
        exact (expr_list_StepOk values st st₁ h₁).trans
          ((emitNils_StepOk _ st₁).trans (store_locals_StepOk _ _))
      | If condition then_branch else_branch =>
        have hstb : sizeOf then_branch < n := by
          have h' := hsz; simp at h'; omega
        cases else_branch with
        | none =>
          simp only [compile_statement, Compiler.emit_jump] at h
          obtain ⟨st₁, h₁, hr₁⟩ := eBind_ok h
          obtain ⟨st₃, h₃, hr₂⟩ := eBind_ok hr₁
          obtain ⟨st₅, h₅, hr₃⟩ := eBind_ok hr₂
          obtain ⟨st₆, h₆, hr₄⟩ := eBind_ok hr₃
          have hA := expr_StepOk condition st st₁ h₁
          have hB := StepOkExc_emit_placeholder st₁ (.JumpIfFalse 0)
          have hC := ihL then_branch _ st₃ hstb h₃
          have hD := StepOk_emit_uncond st₃ 0 (Nat.zero_le _)
          have hX : StepOkExc st₁.chunk.instructions.length st₁
              (st₃.emitI (.Jump 0)) :=
            StepOkExc_trans (StepOkExc_trans hB hC) hD
          have hRep : StepOk st₁ st₅ :=
            StepOkExc_patch_repair (le_refl _) hX h₅
          have hbase : st₁.chunk.instructions.length ≤
              st₃.chunk.instructions.length := by
            have h2 := hB.1
            have h3 := hC.1
            have h4 := emitI_length st₁ (.JumpIfFalse 0)
            omega
          have hst₆ : st₅ = st₆ := by simpa using h₆
          subst hst₆
          exact hA.trans (StepOk_patch hbase hRep hr₄)
        | some else_stmts =>
          have hseb : sizeOf else_stmts < n := by
            have h' := hsz; simp at h'; omega
          simp only [compile_statement, Compiler.emit_jump] at h
          obtain ⟨st₁, h₁, hr₁⟩ := eBind_ok h
          obtain ⟨st₃, h₃, hr₂⟩ := eBind_ok hr₁
          obtain ⟨st₅, h₅, hr₃⟩ := eBind_ok hr₂
          obtain ⟨st₆, h₆, hr₄⟩ := eBind_ok hr₃
          have hA := expr_StepOk condition st st₁ h₁
          have hB := StepOkExc_emit_placeholder st₁ (.JumpIfFalse 0)
          have hC := ihL then_branch _ st₃ hstb h₃
          have hD := StepOk_emit_uncond st₃ 0 (Nat.zero_le _)
          have hX : StepOkExc st₁.chunk.instructions.length st₁
              (st₃.emitI (.Jump 0)) :=
            StepOkExc_trans (StepOkExc_trans hB hC) hD
          have hRep : StepOk st₁ st₅ :=
            StepOkExc_patch_repair (le_refl _) hX h₅
          have hbase : st₁.chunk.instructions.length ≤
              st₃.chunk.instructions.length := by
            have h2 := hB.1
            have h3 := hC.1
            have h4 := emitI_length st₁ (.JumpIfFalse 0)
            omega
          have hE : StepOk st₅ st₆ := ihL else_stmts st₅ st₆ hseb h₆
          exact hA.trans (StepOk_patch hbase (hRep.trans hE) hr₄)
      | While condition body =>
        have hsb : sizeOf body < n := by
          have h' := hsz; simp at h'; omega
        simp only [compile_statement, Compiler.emit_jump] at h
        obtain ⟨st₁, h₁, hr₁⟩ := eBind_ok h
        obtain ⟨st₃, h₃, hr₂⟩ := eBind_ok hr₁
        have hA := expr_StepOk condition st st₁ h₁
        have hB := StepOkExc_emit_placeholder st₁ (.JumpIfFalse 0)
        have hC := ihL body _ st₃ hsb h₃
        have hD : StepOk st₃
            (st₃.emitI (.Jump st.chunk.instructions.length)) := by
          refine StepOk_emit_uncond st₃ _ ?_
          have h1 := hA.1
          have h2 := hB.1
          have h3 := hC.1
          have h4 := emitI_length st₁ (.JumpIfFalse 0)
          omega
        have hX : StepOkExc st₁.chunk.instructions.length st₁
            (st₃.emitI (.Jump st.chunk.instructions.length)) :=
          StepOkExc_trans (StepOkExc_trans hB hC) hD
        exact hA.trans (StepOkExc_patch_repair (le_refl _) hX hr₂)
      | Return value =>
        cases value with
        | none =>
          simp only [compile_statement] at h
          obtain ⟨st₁, h₁, hr₁⟩ := eBind_ok h
          have hst₁ : st.emitI (.LoadConst .nil) = st₁ := by simpa using h₁
          cases hr₁
          exact ((StepOk_emitI_nonjump st (.LoadConst .nil) rfl).trans
            (StepOk_of_instr_eq (by rw [hst₁]))).trans
            (StepOk_emitI_nonjump st₁ .Return rfl)
        | some e =>
          simp only [compile_statement] at h
          obtain ⟨st₁, h₁, hr₁⟩ := eBind_ok h
          cases hr₁
          exact (expr_StepOk e st st₁ h₁).trans
            (StepOk_emitI_nonjump st₁ .Return rfl)
      | For var start stop step body =>
        have hsb : sizeOf body < n := by
          have h' := hsz; simp at h'; omega
        cases step with
        | some step_expr =>
          simp only [compile_statement, Compiler.emit_jump] at h
          obtain ⟨st₁, h₁, hr₁⟩ := eBind_ok h
          obtain ⟨st₂, h₂, hr₂⟩ := eBind_ok hr₁
          obtain ⟨st₃, h₃, hr₃⟩ := eBind_ok hr₂
          obtain ⟨st₅, h₅, hr₄⟩ := eBind_ok hr₃
          have hA : StepOk st st₂ :=
            ((expr_StepOk start st st₁ h₁).trans
              ((@StepOk_of_instr_eq _ (st₁.add_local var) rfl).trans
                (StepOk_emitI_nonjump (st₁.add_local var)
                  (.StoreLocal ((st₁.add_local var).locals.length - 1)) rfl))).trans
              (expr_StepOk stop _ st₂ h₂)
          have hA₂ : StepOk st₂ ((st₂.add_local (var ++ "_end")).emitI
              (.StoreLocal
                ((st₂.add_local (var ++ "_end")).locals.length - 1))) :=
            (@StepOk_of_instr_eq _ (st₂.add_local (var ++ "_end")) rfl).trans
              (StepOk_emitI_nonjump (st₂.add_local (var ++ "_end"))
                (.StoreLocal
                  ((st₂.add_local (var ++ "_end")).locals.length - 1)) rfl)
          have hC := ihL body _ st₅ hsb h₅
          exact ((hA.trans hA₂).trans (expr_StepOk step_expr _ st₃ h₃)).trans
            (for_tail_StepOk _ _ var st₃ st₅ st' hC hr₄)
        | none =>
          simp only [compile_statement, Compiler.emit_jump] at h
          obtain ⟨st₁, h₁, hr₁⟩ := eBind_ok h
          obtain ⟨st₂, h₂, hr₂⟩ := eBind_ok hr₁
          obtain ⟨st₃, h₃, hr₃⟩ := eBind_ok hr₂
          obtain ⟨st₅, h₅, hr₄⟩ := eBind_ok hr₃
          have hA : StepOk st st₂ :=
            ((expr_StepOk start st st₁ h₁).trans
              ((@StepOk_of_instr_eq _ (st₁.add_local var) rfl).trans
                (StepOk_emitI_nonjump (st₁.add_local var)
                  (.StoreLocal ((st₁.add_local var).locals.length - 1)) rfl))).trans
              (expr_StepOk stop _ st₂ h₂)
          have hA₂ : StepOk st₂ ((st₂.add_local (var ++ "_end")).emitI
              (.StoreLocal
                ((st₂.add_local (var ++ "_end")).locals.length - 1))) :=
            (@StepOk_of_instr_eq _ (st₂.add_local (var ++ "_end")) rfl).trans
              (StepOk_emitI_nonjump (st₂.add_local (var ++ "_end"))
                (.StoreLocal
                  ((st₂.add_local (var ++ "_end")).locals.length - 1)) rfl)
          have hC := ihL body _ st₅ hsb h₅
          have hst₃ : ((st₂.add_local (var ++ "_end")).emitI
              (.StoreLocal
                ((st₂.add_local (var ++ "_end")).locals.length - 1))).emitI
              (.LoadConst (.number 1)) = st₃ := by simpa using h₃
          refine ((hA.trans hA₂).trans ?_).trans
            (for_tail_StepOk _ _ var st₃ st₅ st' hC hr₄)
          exact (StepOk_emitI_nonjump _ (.LoadConst (.number 1)) rfl).trans
            (StepOk_of_instr_eq (by rw [hst₃]))
      | Function name params body =>
        simp only [compile_statement] at h
        exact Except.noConfusion h
      | Break =>
        simp only [compile_statement] at h
        exact Except.noConfusion h
    · intro ss st st' hsz h
      cases ss with
      | nil =>
        simp only [compile_stmt_list] at h
        cases h
        exact StepOk.rfl st
      | cons s rest =>
        simp only [compile_stmt_list] at h
        obtain ⟨st₁, h₁, hr₁⟩ := eBind_ok h
        have hs1 : sizeOf s < n := by have h' := hsz; simp at h'; omega
        have hs2 : sizeOf rest < n := by have h' := hsz; simp at h'; omega
        exact (ihS s st st₁ hs1 h₁).trans (ihL rest st₁ st' hs2 hr₁)

theorem stmt_StepOk (s : Stmt) (st st' : Compiler)
    (h : compile_statement s st = .ok st') : StepOk st st' :=
  (stmtAux (sizeOf s + 1)).1 s st st' (by omega) h

theorem stmt_list_StepOk (ss : List Stmt) (st st' : Compiler)
    (h : compile_stmt_list ss st = .ok st') : StepOk st st' :=
  (stmtAux (sizeOf ss + 1)).2 ss st st' (by omega) h

theorem emitI_get_last (st : Compiler) (i : Instruction) :
    (st.emitI i).chunk.instructions[st.chunk.instructions.length]? = some i := by
  rw [emitI_instructions]
  exact List.getElem?_concat_length _ _

/-- The loop-back jump of a compiled `while`: it is the last instruction of
the statement's code, an unconditional `Jump` to the loop start (the length
of the chunk when the statement began), which lies strictly below its own
index. -/
theorem while_back_jump (condition : Expr) (body : List Stmt)
    (st st' : Compiler)
    (h : compile_statement (.While condition body) st = .ok st') :
    st.chunk.instructions.length + 2 ≤ st'.chunk.instructions.length ∧
    st'.chunk.instructions[st'.chunk.instructions.length - 1]? =
      some (.Jump st.chunk.instructions.length) := by
  simp only [compile_statement, Compiler.emit_jump] at h
  obtain ⟨st₁, h₁, hr₁⟩ := eBind_ok h
  obtain ⟨st₃, h₃, hr₂⟩ := eBind_ok hr₁
  have hA := expr_StepOk condition st st₁ h₁
  have hC := stmt_list_StepOk body _ st₃ h₃
  have hC1 := hC.1
  have hlenB := emitI_length st₁ (.JumpIfFalse 0)
  have hlenJ := emitI_length st₃ (.Jump st.chunk.instructions.length)
  have hlen' := patch_length hr₂
  have hA1 := hA.1
  refine ⟨by omega, ?_⟩
  have hidx : st'.chunk.instructions.length - 1 =
      st₃.chunk.instructions.length := by omega
  rw [hidx,
    patch_get_ne hr₂ (by omega : st₃.chunk.instructions.length ≠
      st₁.chunk.instructions.length)]
  exact emitI_get_last st₃ _

theorem add_local_chunk (st : Compiler) (n : String) :
    (st.add_local n).chunk = st.chunk := rfl

/-- The loop-back jump of a compiled numeric `for`: the last instruction of
the statement's code is an unconditional `Jump` whose target (the loop
start) lies within the statement's code and strictly below the jump's own
index. -/
theorem for_back_jump (var : String) (start stop : Expr) (step : Option Expr)
    (body : List Stmt) (st st' : Compiler)
    (h : compile_statement (.For var start stop step body) st = .ok st') :
    ∃ loop_start,
      st'.chunk.instructions[st'.chunk.instructions.length - 1]? =
        some (.Jump loop_start) ∧
      st.chunk.instructions.length ≤ loop_start ∧
      loop_start + 1 < st'.chunk.instructions.length := by
  cases step with
  | some step_expr =>
    simp only [compile_statement, Compiler.emit_jump] at h
    obtain ⟨st₁, h₁, hr₁⟩ := eBind_ok h
    obtain ⟨st₂, h₂, hr₂⟩ := eBind_ok hr₁
    obtain ⟨st₃, h₃, hr₃⟩ := eBind_ok hr₂
    obtain ⟨st₅, h₅, hr₄⟩ := eBind_ok hr₃
    have hA1 := (expr_StepOk start st st₁ h₁).1
    have hA2 := (expr_StepOk stop _ st₂ h₂).1
    have hA3 := (expr_StepOk step_expr _ st₃ h₃).1
    have hC1 := (stmt_list_StepOk body _ st₅ h₅).1
    have hlen' := patch_length hr₄
    simp only [emitI_length, add_local_chunk] at hA2 hA3 hC1 hlen'
    refine ⟨((st₃.add_local (var ++ "_step")).emitI
      (.StoreLocal ((st₃.add_local (var ++ "_step")).locals.length - 1))).chunk.instructions.length,
      ?_, ?_, ?_⟩
    · have hne : ((((st₅.emitI
          (.LoadLocal ((st₁.add_local var).locals.length - 1))).emitI
          (.LoadLocal ((st₃.add_local (var ++ "_step")).locals.length - 1))).emitI
          .Add).emitI
          (.StoreLocal ((st₁.add_local var).locals.length - 1))).chunk.instructions.length ≠
          ((((((st₃.add_local (var ++ "_step")).emitI
            (.StoreLocal ((st₃.add_local (var ++ "_step")).locals.length - 1))).emitI
            (.LoadLocal ((st₁.add_local var).locals.length - 1))).emitI
            (.LoadLocal ((st₂.add_local (var ++ "_end")).locals.length - 1))).emitI
            .LessEqual)).chunk.instructions.length := by
        simp only [emitI_length, add_local_chunk]
        omega
      have hidx : st'.chunk.instructions.length - 1 =
          ((((st₅.emitI
            (.LoadLocal ((st₁.add_local var).locals.length - 1))).emitI
            (.LoadLocal ((st₃.add_local (var ++ "_step")).locals.length - 1))).emitI
            .Add).emitI
            (.StoreLocal ((st₁.add_local var).locals.length - 1))).chunk.instructions.length := by
        simp only [emitI_length, add_local_chunk]
        omega
      rw [hidx, patch_get_ne hr₄ hne]
      exact emitI_get_last _ _
    · simp only [emitI_length, add_local_chunk]
      omega
    · simp only [emitI_length, add_local_chunk]
      omega
  | none =>
    simp only [compile_statement, Compiler.emit_jump] at h
    obtain ⟨st₁, h₁, hr₁⟩ := eBind_ok h
    obtain ⟨st₂, h₂, hr₂⟩ := eBind_ok hr₁
    obtain ⟨st₃, h₃, hr₃⟩ := eBind_ok hr₂
    obtain ⟨st₅, h₅, hr₄⟩ := eBind_ok hr₃
    have hA1 := (expr_StepOk start st st₁ h₁).1
    have hA2 := (expr_StepOk stop _ st₂ h₂).1
    have hst₃ : ((st₂.add_local (var ++ "_end")).emitI
        (.StoreLocal ((st₂.add_local (var ++ "_end")).locals.length - 1))).emitI
        (.LoadConst (.number 1)) = st₃ := by simpa using h₃
    have hlen₃ : st₃.chunk.instructions.length =
        st₂.chunk.instructions.length + 2 := by
      rw [← hst₃]
      simp only [emitI_length, add_local_chunk]
    have hC1 := (stmt_list_StepOk body _ st₅ h₅).1
    have hlen' := patch_length hr₄
    simp only [emitI_length, add_local_chunk] at hA2 hC1 hlen'
    refine ⟨((st₃.add_local (var ++ "_step")).emitI
      (.StoreLocal ((st₃.add_local (var ++ "_step")).locals.length - 1))).chunk.instructions.length,
      ?_, ?_, ?_⟩
    · have hne : ((((st₅.emitI
          (.LoadLocal ((st₁.add_local var).locals.length - 1))).emitI
          (.LoadLocal ((st₃.add_local (var ++ "_step")).locals.length - 1))).emitI
          .Add).emitI
          (.StoreLocal ((st₁.add_local var).locals.length - 1))).chunk.instructions.length ≠
          ((((((st₃.add_local (var ++ "_step")).emitI
            (.StoreLocal ((st₃.add_local (var ++ "_step")).locals.length - 1))).emitI
            (.LoadLocal ((st₁.add_local var).locals.length - 1))).emitI
            (.LoadLocal ((st₂.add_local (var ++ "_end")).locals.length - 1))).emitI
            .LessEqual)).chunk.instructions.length := by
        simp only [emitI_length, add_local_chunk]
        omega
      have hidx : st'.chunk.instructions.length - 1 =
          ((((st₅.emitI
            (.LoadLocal ((st₁.add_local var).locals.length - 1))).emitI
            (.LoadLocal ((st₃.add_local (var ++ "_step")).locals.length - 1))).emitI
            .Add).emitI
            (.StoreLocal ((st₁.add_local var).locals.length - 1))).chunk.instructions.length := by
        simp only [emitI_length, add_local_chunk]
        omega
      rw [hidx, patch_get_ne hr₄ hne]
      exact emitI_get_last _ _
    · simp only [emitI_length, add_local_chunk]
      omega
    · simp only [emitI_length, add_local_chunk]
      omega

/-- The end-skip jump of a compiled `if` (the patched exit of the then
branch): an unconditional `Jump` inside the statement's code whose patched
target is the end of the statement's code — strictly greater than its own
index. -/
theorem if_end_jump (condition : Expr) (then_branch : List Stmt)
    (else_branch : Option (List Stmt)) (st st' : Compiler)
    (h : compile_statement (.If condition then_branch else_branch) st = .ok st') :
    ∃ j, st.chunk.instructions.length ≤ j ∧
      j < st'.chunk.instructions.length ∧
      st'.chunk.instructions[j]? =
        some (.Jump st'.chunk.instructions.length) := by
  cases else_branch with
  | none =>
    simp only [compile_statement, Compiler.emit_jump] at h
    obtain ⟨st₁, h₁, hr₁⟩ := eBind_ok h
    obtain ⟨st₃, h₃, hr₂⟩ := eBind_ok hr₁
    obtain ⟨st₅, h₅, hr₃⟩ := eBind_ok hr₂
    obtain ⟨st₆, h₆, hr₄⟩ := eBind_ok hr₃
    have hst₆ : st₅ = st₆ := by simpa using h₆
    subst hst₆
    have hA1 := (expr_StepOk condition st st₁ h₁).1
    have hC1 := (stmt_list_StepOk then_branch _ st₃ h₃).1
    have hlenB := emitI_length st₁ (.JumpIfFalse 0)
    have hlenJ := emitI_length st₃ (.Jump 0)
    have hlen₅ := patch_length h₅
    have hlen' := patch_length hr₄
    refine ⟨st₃.chunk.instructions.length, by omega, by omega, ?_⟩
    obtain ⟨i, i', hget, hre, hgetc⟩ := patch_get_eq hr₄
    have hi : i = Instruction.Jump 0 := by
      have hpres := patch_get_ne h₅
        (by omega : st₃.chunk.instructions.length ≠
          st₁.chunk.instructions.length)
      rw [hpres, emitI_get_last] at hget
      exact (Option.some.injEq _ _).mp hget.symm
    subst hi
    simp only [retarget, Option.some.injEq] at hre
    rw [hgetc, ← hre]
    have : st₅.chunk.instructions.length = st'.chunk.instructions.length := by
      omega
    rw [this]
  | some else_stmts =>
    simp only [compile_statement, Compiler.emit_jump] at h
    obtain ⟨st₁, h₁, hr₁⟩ := eBind_ok h
    obtain ⟨st₃, h₃, hr₂⟩ := eBind_ok hr₁
    obtain ⟨st₅, h₅, hr₃⟩ := eBind_ok hr₂
    obtain ⟨st₆, h₆, hr₄⟩ := eBind_ok hr₃
    have hA1 := (expr_StepOk condition st st₁ h₁).1
    have hC1 := (stmt_list_StepOk then_branch _ st₃ h₃).1
    have hE := stmt_list_StepOk else_stmts st₅ st₆ h₆
    have hE1 := hE.1
    have hlenB := emitI_length st₁ (.JumpIfFalse 0)
    have hlenJ := emitI_length st₃ (.Jump 0)
    have hlen₅ := patch_length h₅
    have hlen' := patch_length hr₄
    refine ⟨st₃.chunk.instructions.length, by omega, by omega, ?_⟩
    obtain ⟨i, i', hget, hre, hgetc⟩ := patch_get_eq hr₄
    have hi : i = Instruction.Jump 0 := by
      have hpres₅ := patch_get_ne h₅
        (by omega : st₃.chunk.instructions.length ≠
          st₁.chunk.instructions.length)
      have hpres₆ := hE.2.1 st₃.chunk.instructions.length (by omega)
      rw [hpres₆, hpres₅, emitI_get_last] at hget
      exact (Option.some.injEq _ _).mp hget.symm
    subst hi
    simp only [retarget, Option.some.injEq] at hre
    rw [hgetc, ← hre]
    have : st₆.chunk.instructions.length = st'.chunk.instructions.length := by
      omega
    rw [this]

/-- Jump validity of a fully compiled program: every jump target is in
bounds (strictly below the instruction count) and every conditional jump is
strictly forward. -/
theorem compile_jumps (program : Program) (chunk : Chunk)
    (h : Compiler.compile program = .ok chunk) :
    ∀ i ins t, chunk.instructions[i]? = some ins →
      jumpTargetOf ins = some t →
      t < chunk.instructions.length ∧ (isCondJump ins = true → i < t) := by
  unfold Compiler.compile at h
  cases hcs : compile_stmt_list program.statements Compiler.new with
  | error e => rw [hcs] at h; exact Except.noConfusion h
  | ok stf =>
    rw [hcs] at h
    cases h
    intro i ins t hins ht
    have hSO := stmt_list_StepOk program.statements Compiler.new stf hcs
    have hfin : ((stf.chunk.emit (.LoadConst .nil) 0).emit .Return 0).instructions =
        (stf.chunk.instructions ++ [.LoadConst .nil]) ++ [.Return] := rfl
    rw [hfin] at hins
    have hlen : ((stf.chunk.emit (.LoadConst .nil) 0).emit .Return 0).instructions.length =
        stf.chunk.instructions.length + 2 := by
      rw [hfin]; simp
    rw [hlen]
    rcases Nat.lt_or_ge i stf.chunk.instructions.length with hlt | hge
    · rw [List.getElem?_append_left (by simp; omega),
        List.getElem?_append_left hlt] at hins
      have := hSO.2.2 i ins t (Nat.zero_le _) hins ht
      exact ⟨by omega, this.2⟩
    · rcases Nat.lt_or_ge i (stf.chunk.instructions.length + 1) with hlt₂ | hge₂
      · have hieq : i = stf.chunk.instructions.length := by omega
        subst hieq
        rw [List.getElem?_append_left (by simp),
          List.getElem?_concat_length] at hins
        cases hins
        simp [jumpTargetOf] at ht
      · rcases Nat.lt_or_ge i (stf.chunk.instructions.length + 2) with hlt₃ | hge₃
        · have hieq : i = stf.chunk.instructions.length + 1 := by omega
          subst hieq
          rw [show stf.chunk.instructions.length + 1 =
              (stf.chunk.instructions ++ [Instruction.LoadConst Value.nil]).length by simp,
            List.getElem?_concat_length] at hins
          cases hins
          simp [jumpTargetOf] at ht
        · rw [List.getElem?_eq_none (by simp; omega)] at hins
          cases hins


/-! ## Lemmas: the interpreter never touches the JIT profiling state -/

theorem push_jit (st : LuaJitRuntime) (v : Value) :
    (push st v).jit_compiler = st.jit_compiler := rfl

theorem withTopFrame_jit (st : LuaJitRuntime) (f : CallFrame → CallFrame) :
    (withTopFrame st f).jit_compiler = st.jit_compiler := by
  unfold withTopFrame
  split <;> rfl

theorem execute_instruction_jit (builtins : BuiltinTable) (i : Instruction)
    (st st' : LuaJitRuntime)
    (h : execute_instruction builtins i st = .ok st') :
    st'.jit_compiler = st.jit_compiler := by
  cases i <;> simp only [execute_instruction] at h <;>
    (repeat' split at h) <;>
    (try cases h) <;>
    first
      | rfl
      | (rw [withTopFrame_jit])

theorem finishRun_jit (st : LuaJitRuntime) :
    (finishRun st).2.jit_compiler = st.jit_compiler := by
  unfold finishRun
  split <;> rfl

theorem run_loop_jit (builtins : BuiltinTable) :
    ∀ (fuel : Nat) (st : LuaJitRuntime) (v : Value) (st' : LuaJitRuntime)
      (tr : List Nat),
      run_loop builtins fuel st = some (.ok (v, st'), tr) →
      st'.jit_compiler = st.jit_compiler := by
  intro fuel
  induction fuel with
  | zero => intro st v st' tr h; exact Option.noConfusion h
  | succ fuel ih =>
    intro st v st' tr h
    simp only [run_loop] at h
    split at h
    · simp only [Option.some.injEq, Prod.mk.injEq] at h
      obtain ⟨hp, htr⟩ := h
      have hp2 := congrArg Prod.snd (Except.ok.inj hp)
      simp only at hp2
      rw [← hp2]
      exact finishRun_jit st
    · rename_i frame rest hcs
      split at h
      · split at h
        · simp at h
        · rename_i st₁ hexec
          split at h
          · exact Option.noConfusion h
          · rename_i p r tr₁ hrec
            simp only [Option.some.injEq, Prod.mk.injEq] at h
            obtain ⟨hr, htr⟩ := h
            subst hr
            have hmid := ih _ v st' tr₁ hrec
            have hstep := execute_instruction_jit builtins _ st st₁ hexec
            rw [hmid]
            split
            · rw [withTopFrame_jit]
              exact hstep
            · exact hstep
      · split at h
        · simp only [Option.some.injEq, Prod.mk.injEq] at h
          obtain ⟨hp, htr⟩ := h
          have hp2 := congrArg Prod.snd (Except.ok.inj hp)
          simp only at hp2
          rw [← hp2]
          exact finishRun_jit _
        · have hx := ih _ v st' tr h
          exact hx

/-! ## Lemmas: hot-region scan characterization -/

theorem regionScan_aux (instrs : List Instruction) :
    ∀ (n i : Nat), instrs.length - i ≤ n →
      (∃ j ins, i ≤ j ∧ instrs[j]? = some ins ∧
        isRegionBoundary ins = true ∧
        (∀ k insk, i ≤ k → k < j → instrs[k]? = some insk →
          isRegionBoundary insk = false) ∧
        regionScan instrs i = j + 1) ∨
      ((∀ k insk, i ≤ k → instrs[k]? = some insk →
          isRegionBoundary insk = false) ∧
        regionScan instrs i = instrs.length) := by
  intro n
  induction n with
  | zero =>
    intro i hle
    right
    have hlen : instrs.length ≤ i := by omega
    constructor
    · intro k insk hik hk
      have := (List.getElem?_eq_some_iff.mp hk).1
      exact absurd this (by omega)
    · rw [regionScan]
      rw [List.getElem?_eq_none (by omega)]
  | succ n ihn =>
    intro i hle
    cases hg : instrs[i]? with
    | none =>
      right
      have hlen : instrs.length ≤ i := List.getElem?_eq_none_iff.mp hg
      constructor
      · intro k insk hik hk
        have := (List.getElem?_eq_some_iff.mp hk).1
        exact absurd this (by omega)
      · rw [regionScan, hg]
    | some ins =>
      have hilt : i < instrs.length := (List.getElem?_eq_some_iff.mp hg).1
      by_cases hb : isRegionBoundary ins = true
      · left
        refine ⟨i, ins, le_refl i, hg, hb, ?_, ?_⟩
        · intro k insk hik hk _
          exact absurd hik (by omega)
        · rw [regionScan, hg]
          simp [hb]
      · have hbf : isRegionBoundary ins = false := by
          cases hx : isRegionBoundary ins
          · rfl
          · exact absurd hx hb
        have hstep : regionScan instrs i = regionScan instrs (i + 1) := by
          rw [regionScan, hg]
          simp [hbf]
        rcases ihn (i + 1) (by omega) with
          ⟨j, ins', hij, hgj, hbj, hmid, hres⟩ | ⟨hnone, hres⟩
        · left
          refine ⟨j, ins', by omega, hgj, hbj, ?_, by rw [hstep]; exact hres⟩
          intro k insk hik hkj hk
          rcases Nat.lt_or_ge k (i + 1) with hki | hki
          · have hkeq : k = i := by omega
            subst hkeq
            rw [hg] at hk
            cases hk
            exact hbf
          · exact hmid k insk hki hkj hk
        · right
          refine ⟨?_, by rw [hstep]; exact hres⟩
          intro k insk hik hk
          rcases Nat.lt_or_ge k (i + 1) with hki | hki
          · have hkeq : k = i := by omega
            subst hkeq
            rw [hg] at hk
            cases hk
            exact hbf
          · exact hnone k insk hki hk

/-- Full characterization of the forward scan of `find_hot_region_end`. -/
theorem regionScan_spec (instrs : List Instruction) (i : Nat) :
    (∃ j ins, i ≤ j ∧ instrs[j]? = some ins ∧
      isRegionBoundary ins = true ∧
      (∀ k insk, i ≤ k → k < j → instrs[k]? = some insk →
        isRegionBoundary insk = false) ∧
      regionScan instrs i = j + 1) ∨
    ((∀ k insk, i ≤ k → instrs[k]? = some insk →
        isRegionBoundary insk = false) ∧
      regionScan instrs i = instrs.length) :=
  regionScan_aux instrs (instrs.length - i) i (le_refl _)


/-! ## Concrete pipeline stages for the claim programs

Stage-by-stage evaluations of the three concrete programs the claims run:
the branching program of C1, `return 2 + 3` (C2, C3) and `return 5 / 0`
(C7).  Each stage (token list, AST, lowered chunk, interpreter run) is
recorded as an explicit literal, so the end-to-end claim theorems compose
by rewriting. -/

/-- The token list of the C1 branching program. -/
def toksIf : List Token :=
  [⟨.Local, 1, 1⟩, ⟨.Identifier "x", 1, 7⟩, ⟨.Assign, 1, 9⟩, ⟨.Number 10, 1, 11⟩,
   ⟨.Newline, 1, 13⟩, ⟨.If, 1, 14⟩, ⟨.Identifier "x", 1, 17⟩, ⟨.Greater, 1, 19⟩,
   ⟨.Number 5, 1, 21⟩, ⟨.Then, 1, 23⟩, ⟨.Newline, 1, 27⟩, ⟨.Return, 1, 29⟩,
   ⟨.String "greater", 1, 36⟩, ⟨.Newline, 1, 45⟩, ⟨.Else, 1, 46⟩, ⟨.Newline, 1, 50⟩,
   ⟨.Return, 1, 52⟩, ⟨.String "lesser", 1, 59⟩, ⟨.Newline, 1, 67⟩, ⟨.End, 1, 68⟩,
   ⟨.Eof, 1, 71⟩]

/-- The AST of the C1 branching program. -/
def astIf : Program :=
  ⟨[.LocalAssignment ["x"] [.Literal (.number 10)],
    .If (.Binary (.Identifier "x") .Greater (.Literal (.number 5)))
      [.Return (some (.Literal (.string "greater")))]
      (some [.Return (some (.Literal (.string "lesser")))])]⟩

/-- The lowered chunk of the C1 branching program. -/
def chunkIf : Chunk :=
  ⟨[.LoadConst (.number 10), .StoreLocal 0, .LoadLocal 0, .LoadConst (.number 5),
    .Greater, .JumpIfFalse 9, .LoadConst (.string "greater"), .Return, .Jump 11,
    .LoadConst (.string "lesser"), .Return, .LoadConst .nil, .Return],
   [], [0, 0, 0, 0, 0, 0, 0, 0, 0, 0, 0, 0, 0]⟩

theorem lexIf :
    tokenize "local x = 10\nif x > 5 then\n return \"greater\"\nelse\n return \"lesser\"\nend" =
      .ok toksIf := by
  with_unfolding_all rfl

theorem parseIf : parse 1000 toksIf = .ok astIf := by
  with_unfolding_all rfl

theorem compileIf : Compiler.compile astIf = .ok chunkIf := by
  with_unfolding_all rfl

theorem runIf (builtins : BuiltinTable) (jc : JitCompiler) :
    execute_with_jit builtins 1000 LuaJitRuntime.new chunkIf jc =
      some (.error "Stack underflow for jump condition", [0, 1, 2, 3, 4, 5, 5]) := by
  with_unfolding_all rfl

/-- The token list of `return 2 + 3`. -/
def toksRet : List Token :=
  [⟨.Return, 1, 1⟩, ⟨.Number 2, 1, 8⟩, ⟨.Plus, 1, 10⟩, ⟨.Number 3, 1, 12⟩,
   ⟨.Eof, 1, 13⟩]

/-- The AST of `return 2 + 3`. -/
def astRet : Program :=
  ⟨[.Return (some (.Binary (.Literal (.number 2)) .Add (.Literal (.number 3))))]⟩

/-- The lowered chunk of `return 2 + 3`. -/
def chunkRet : Chunk :=
  ⟨[.LoadConst (.number 2), .LoadConst (.number 3), .Add, .Return,
    .LoadConst .nil, .Return],
   [], [0, 0, 0, 0, 0, 0]⟩

theorem lexRet : tokenize "return 2 + 3" = .ok toksRet := by
  with_unfolding_all rfl

theorem parseRet : parse 1000 toksRet = .ok astRet := by
  with_unfolding_all rfl

theorem compileRet : Compiler.compile astRet = .ok chunkRet := by
  with_unfolding_all rfl

theorem runRet (builtins : BuiltinTable) (jc : JitCompiler) :
    execute_with_jit builtins 1000 LuaJitRuntime.new chunkRet jc =
      some (.ok (Value.nil,
        { globals := add_builtins []
          stack := [Value.number 5]
          call_stack := []
          jit_compiler := JitCompiler.new }), [0, 1, 2, 3, 4, 5]) := by
  with_unfolding_all rfl

/-- The token list of `return 5 / 0`. -/
def toksDiv : List Token :=
  [⟨.Return, 1, 1⟩, ⟨.Number 5, 1, 8⟩, ⟨.Slash, 1, 10⟩, ⟨.Number 0, 1, 12⟩,
   ⟨.Eof, 1, 13⟩]

/-- The AST of `return 5 / 0`. -/
def astDiv : Program :=
  ⟨[.Return (some (.Binary (.Literal (.number 5)) .Div (.Literal (.number 0))))]⟩

/-- The lowered chunk of `return 5 / 0`. -/
def chunkDiv : Chunk :=
  ⟨[.LoadConst (.number 5), .LoadConst (.number 0), .Div, .Return,
    .LoadConst .nil, .Return],
   [], [0, 0, 0, 0, 0, 0]⟩

theorem lexDiv : tokenize "return 5 / 0" = .ok toksDiv := by
  with_unfolding_all rfl

theorem parseDiv : parse 1000 toksDiv = .ok astDiv := by
  with_unfolding_all rfl

theorem compileDiv : Compiler.compile astDiv = .ok chunkDiv := by
  with_unfolding_all rfl

theorem runDiv (builtins : BuiltinTable) (jc : JitCompiler) :
    execute_with_jit builtins 1000 LuaJitRuntime.new chunkDiv jc =
      some (.error "Division by zero", [0, 1, 2]) := by
  with_unfolding_all rfl

/-! ## Claim theorems -/

/-- C1: the claim states that executing the branching program yields
`Ok(String "greater")`, execution proceeding past the non-taken
`JumpIfFalse` into the then-branch.  On the code this is false: the
dispatch loop skips the pc increment for every jump opcode while the
fallthrough path of `JumpIfFalse` leaves the pc unchanged, so the
conditional jump at pc 5 is dispatched twice (the trace ends `5, 5`); the
second dispatch pops an empty operand stack and the run returns the runtime
error `Stack underflow for jump condition` — contradicting the claim (and
the repository's own `test_if_statement`). -/
theorem C1_branch_fallthrough_bug (builtins : BuiltinTable) :
    execute builtins 1000 1000 LuaJitRuntime.new
        "local x = 10\nif x > 5 then\n return \"greater\"\nelse\n return \"lesser\"\nend" =
      some (.error (LuaError.runtime_error "Stack underflow for jump condition"),
        [0, 1, 2, 3, 4, 5, 5]) := by
  simp only [execute, execute_internal, lexIf, parseIf, compileIf, runIf]

/-- Witness for C1 at the empty builtin table. -/
theorem C1_branch_fallthrough_bug_witness :
    execute (fun _ => none) 1000 1000 LuaJitRuntime.new
        "local x = 10\nif x > 5 then\n return \"greater\"\nelse\n return \"lesser\"\nend" =
      some (.error (LuaError.runtime_error "Stack underflow for jump condition"),
        [0, 1, 2, 3, 4, 5, 5]) :=
  C1_branch_fallthrough_bug (fun _ => none)

/-- C2: the claim states `execute("return 2 + 3")` returns `Ok(Number 5)`.
On the code this is false: the `Return` instruction is a no-op, execution
runs on into the implicit `LoadConst Nil; Return` terminator, and the final
`stack.pop()` yields that `Nil` — the computed 5 is left stranded below it
on the operand stack (visible in the final state) — contradicting the claim
(and the repository's own `test_basic_arithmetic`). -/
theorem C2_return_result_bug (builtins : BuiltinTable) :
    execute builtins 1000 1000 LuaJitRuntime.new "return 2 + 3" =
      some (.ok (Value.nil,
        { globals := add_builtins []
          stack := [Value.number 5]
          call_stack := []
          jit_compiler := JitCompiler.new }), [0, 1, 2, 3, 4, 5]) := by
  simp only [execute, execute_internal, lexRet, parseRet, compileRet, runRet]

/-- Witness for C2 at the empty builtin table. -/
theorem C2_return_result_bug_witness :
    execute (fun _ => none) 1000 1000 LuaJitRuntime.new "return 2 + 3" =
      some (.ok (Value.nil,
        { globals := add_builtins []
          stack := [Value.number 5]
          call_stack := []
          jit_compiler := JitCompiler.new }), [0, 1, 2, 3, 4, 5]) :=
  C2_return_result_bug (fun _ => none)

/-- C3 (counterexample): running `return 2 + 3` executes pc 0 (it heads the
dispatch trace), yet the recorded execution count for pc 0 after the run is
0 — refuting the claim that after a run every executed pc has a nonzero
recorded count. -/
theorem C3_profiling_counterexample :
    (execute_internal (fun _ => none) 1000 1000 LuaJitRuntime.new
        "return 2 + 3").map (fun p => p.2) = some [0, 1, 2, 3, 4, 5] ∧
    (execute_internal (fun _ => none) 1000 1000 LuaJitRuntime.new
        "return 2 + 3").map
        (fun p => p.1.map
          (fun q => countsGet q.2.jit_compiler.execution_counts 0)) =
      some (.ok 0) := by
  refine ⟨?_, ?_⟩ <;>
    simp only [execute_internal, lexRet, parseRet, compileRet, runRet,
      Option.map, Except.map, JitCompiler.new, countsGet]

/-- C3 (amended): the interpreter never consults the JIT profiler —
`execute_with_jit` ignores its JIT argument and never calls
`record_execution`, so the runtime's execution-count state is unchanged by
a completed run. -/
theorem C3_no_profiling (builtins : BuiltinTable) (fuel : Nat)
    (st : LuaJitRuntime) (chunk : Chunk) (jit : JitCompiler) (v : Value)
    (st' : LuaJitRuntime) (tr : List Nat)
    (h : execute_with_jit builtins fuel st chunk jit = some (.ok (v, st'), tr)) :
    st'.jit_compiler = st.jit_compiler := by
  unfold execute_with_jit at h
  have hx := run_loop_jit builtins fuel _ v st' tr h
  exact hx

/-- Witness for the amended C3 theorem at a concrete two-instruction chunk. -/
theorem C3_no_profiling_witness :
    execute_with_jit (fun _ => none) 10 LuaJitRuntime.new
        ⟨[.LoadConst .nil, .Return], [], [0, 0]⟩ JitCompiler.new =
      some (.ok (.nil, LuaJitRuntime.new), [0, 1]) ∧
    LuaJitRuntime.new.jit_compiler = LuaJitRuntime.new.jit_compiler :=
  ⟨rfl, C3_no_profiling (fun _ => none) 10 LuaJitRuntime.new
    ⟨[.LoadConst .nil, .Return], [], [0, 0]⟩ JitCompiler.new .nil
    LuaJitRuntime.new [0, 1] rfl⟩

/-- C4: jump validity and direction invariants of the lowering compiler.
(1) In a fully compiled program every `Jump`/`JumpIfFalse`/`JumpIfTrue`
target is strictly below the instruction count and every conditional jump
is strictly forward; (2) a compiled `while` ends in an unconditional
loop-back `Jump` to the loop start, strictly below its own index; (3) a
compiled `for` ends in a loop-back `Jump` whose target lies within the
statement's code, strictly below the jump's own index; (4) a compiled `if`
contains a patched exit `Jump` to the end of the statement's code, strictly
above its own index. -/
theorem C4_jump_invariants :
    (∀ (program : Program) (chunk : Chunk),
      Compiler.compile program = .ok chunk →
      ∀ i ins t, chunk.instructions[i]? = some ins →
        jumpTargetOf ins = some t →
        t < chunk.instructions.length ∧ (isCondJump ins = true → i < t)) ∧
    (∀ (condition : Expr) (body : List Stmt) (st st' : Compiler),
      compile_statement (.While condition body) st = .ok st' →
      st.chunk.instructions.length + 2 ≤ st'.chunk.instructions.length ∧
      st'.chunk.instructions[st'.chunk.instructions.length - 1]? =
        some (.Jump st.chunk.instructions.length)) ∧
    (∀ (var : String) (start stop : Expr) (step : Option Expr)
       (body : List Stmt) (st st' : Compiler),
      compile_statement (.For var start stop step body) st = .ok st' →
      ∃ loop_start,
        st'.chunk.instructions[st'.chunk.instructions.length - 1]? =
          some (.Jump loop_start) ∧
        st.chunk.instructions.length ≤ loop_start ∧
        loop_start + 1 < st'.chunk.instructions.length) ∧
    (∀ (condition : Expr) (then_branch : List Stmt)
       (else_branch : Option (List Stmt)) (st st' : Compiler),
      compile_statement (.If condition then_branch else_branch) st = .ok st' →
      ∃ j, st.chunk.instructions.length ≤ j ∧
        j < st'.chunk.instructions.length ∧
        st'.chunk.instructions[j]? =
          some (.Jump st'.chunk.instructions.length)) :=
  ⟨compile_jumps, while_back_jump, for_back_jump, if_end_jump⟩

/-- Witness for C4 at two concrete programs: in the compiled
`if true then end` program the conditional jump at index 1 targets 3 (in
bounds, forward), and the compiled `while false do end` statement ends in a
loop-back jump to index 0. -/
theorem C4_jump_invariants_witness :
    (3 < 5 ∧ (isCondJump (.JumpIfFalse 3) = true → 1 < 3)) ∧
    (0 + 2 ≤ 3 ∧
      ([Instruction.LoadConst (.boolean false), Instruction.JumpIfFalse 3,
        Instruction.Jump 0] : List Instruction)[3 - 1]? = some (.Jump 0)) :=
  ⟨C4_jump_invariants.1 ⟨[.If (.Literal (.boolean true)) [] none]⟩
      ⟨[.LoadConst (.boolean true), .JumpIfFalse 3, .Jump 3, .LoadConst .nil,
        .Return], [], [0, 0, 0, 0, 0]⟩ rfl 1 (.JumpIfFalse 3) 3 rfl rfl,
   C4_jump_invariants.2.1 (.Literal (.boolean false)) [] Compiler.new
      ⟨⟨[.LoadConst (.boolean false), .JumpIfFalse 3, .Jump 0], [],
        [0, 0, 0]⟩, 0, []⟩ rfl⟩

/-- C5: every successfully compiled chunk ends with the implicit
`LoadConst Nil; Return` terminator pair, so execution never falls off the
end of a compiled chunk without a defined result. -/
theorem C5_terminator (program : Program) (chunk : Chunk)
    (h : Compiler.compile program = .ok chunk) :
    2 ≤ chunk.instructions.length ∧
    chunk.instructions.drop (chunk.instructions.length - 2) =
      [.LoadConst .nil, .Return] := by
  unfold Compiler.compile at h
  cases hcs : compile_stmt_list program.statements Compiler.new with
  | error e => rw [hcs] at h; exact Except.noConfusion h
  | ok stf =>
    rw [hcs] at h
    cases h
    have hfin : ((stf.chunk.emit (.LoadConst .nil) 0).emit .Return 0).instructions =
        stf.chunk.instructions ++ [.LoadConst .nil, .Return] := by
      simp [Chunk.emit]
    constructor
    · rw [hfin]
      simp
    · rw [hfin]
      rw [show (stf.chunk.instructions ++
          [Instruction.LoadConst .nil, Instruction.Return]).length - 2 =
          stf.chunk.instructions.length by simp]
      exact List.drop_left _ _

/-- Witness for C5 at the empty program. -/
theorem C5_terminator_witness :
    Compiler.compile ⟨[]⟩ =
      .ok ⟨[.LoadConst .nil, .Return], [], [0, 0]⟩ ∧
    (2 ≤ ([Instruction.LoadConst .nil, Instruction.Return] : List Instruction).length ∧
      ([Instruction.LoadConst .nil, Instruction.Return] : List Instruction).drop
        (([Instruction.LoadConst .nil, Instruction.Return] : List Instruction).length - 2) =
        [.LoadConst .nil, .Return]) :=
  ⟨rfl, C5_terminator ⟨[]⟩ ⟨[.LoadConst .nil, .Return], [], [0, 0]⟩ rfl⟩

/-- C6: `Chunk::patch_jump(index)` on a jump instruction rewrites that
instruction's target to the chunk's current instruction count, leaving
every other instruction, the constant pool and the line table unchanged;
on any other opcode it is the fatal programmer-invariant panic (modelled as
`none`), not a recoverable result. -/
theorem C6_patch_jump_spec (c : Chunk) (index : Nat) (ins : Instruction)
    (h : c.instructions[index]? = some ins) :
    (∀ t, ins = .Jump t →
      c.patch_jump index =
        some ⟨c.instructions.set index (.Jump c.instructions.length),
          c.constants, c.line_numbers⟩) ∧
    (∀ t, ins = .JumpIfFalse t →
      c.patch_jump index =
        some ⟨c.instructions.set index (.JumpIfFalse c.instructions.length),
          c.constants, c.line_numbers⟩) ∧
    (∀ t, ins = .JumpIfTrue t →
      c.patch_jump index =
        some ⟨c.instructions.set index (.JumpIfTrue c.instructions.length),
          c.constants, c.line_numbers⟩) ∧
    ((∀ t, ins ≠ .Jump t) → (∀ t, ins ≠ .JumpIfFalse t) →
      (∀ t, ins ≠ .JumpIfTrue t) → c.patch_jump index = none) := by
  refine ⟨?_, ?_, ?_, ?_⟩
  · intro t ht
    subst ht
    unfold Chunk.patch_jump
    rw [h]
    rfl
  · intro t ht
    subst ht
    unfold Chunk.patch_jump
    rw [h]
    rfl
  · intro t ht
    subst ht
    unfold Chunk.patch_jump
    rw [h]
    rfl
  · intro h₁ h₂ h₃
    unfold Chunk.patch_jump
    rw [h]
    cases ins with
    | Jump t => exact absurd rfl (h₁ t)
    | JumpIfFalse t => exact absurd rfl (h₂ t)
    | JumpIfTrue t => exact absurd rfl (h₃ t)
    | _ => rfl

/-- Witness for C6: patching the jump at index 0 of a two-instruction chunk
retargets it to 2; patching a non-jump instruction is the modelled panic. -/
theorem C6_patch_jump_spec_witness :
    Chunk.patch_jump ⟨[.Jump 0, .Add], [], [0, 0]⟩ 0 =
      some ⟨[.Jump 2, .Add], [], [0, 0]⟩ ∧
    Chunk.patch_jump ⟨[.Add], [], [0]⟩ 0 = none := by
  refine ⟨?_, ?_⟩
  · have hx := (C6_patch_jump_spec ⟨[.Jump 0, .Add], [], [0, 0]⟩ 0
      (.Jump 0) rfl).1 0 rfl
    exact hx
  · have hx := (C6_patch_jump_spec ⟨[.Add], [], [0]⟩ 0 .Add rfl).2.2.2
      (fun t ht => Instruction.noConfusion ht)
      (fun t ht => Instruction.noConfusion ht)
      (fun t ht => Instruction.noConfusion ht)
    exact hx

/-- C7: dividing or taking the modulo by an operand that coerces to the
number 0 is a runtime error (`Division by zero` / `Modulo by zero`), never
an infinity or NaN result; in particular `execute("return 5 / 0")` returns
the division-by-zero error. -/
theorem C7_div_mod_zero :
    (∀ (builtins : BuiltinTable) (st : LuaJitRuntime) (a b : Value)
       (rest : List Value) (a_num : ℚ),
      st.stack = b :: a :: rest → a.to_number = some a_num →
      b.to_number = some 0 →
      execute_instruction builtins .Div st = .error "Division by zero" ∧
      execute_instruction builtins .Mod st = .error "Modulo by zero") ∧
    (∀ builtins : BuiltinTable,
      execute builtins 1000 1000 LuaJitRuntime.new "return 5 / 0" =
        some (.error (LuaError.runtime_error "Division by zero"), [0, 1, 2])) := by
  refine ⟨?_, ?_⟩
  · intro builtins st a b rest a_num hstack ha hb
    refine ⟨?_, ?_⟩
    · simp [execute_instruction, hstack, ha, hb]
    · simp [execute_instruction, hstack, ha, hb]
  · intro builtins
    simp only [execute, execute_internal, lexDiv, parseDiv, compileDiv, runDiv]

/-- Witness for C7: `Div` and `Mod` on the concrete stack `[0, 5]` (top
first) error out, and the concrete division program returns the error. -/
theorem C7_div_mod_zero_witness :
    (execute_instruction (fun _ => none) .Div
        ⟨[], [.number 0, .number 5], [], JitCompiler.new⟩ =
       .error "Division by zero" ∧
     execute_instruction (fun _ => none) .Mod
        ⟨[], [.number 0, .number 5], [], JitCompiler.new⟩ =
       .error "Modulo by zero") ∧
    execute (fun _ => none) 1000 1000 LuaJitRuntime.new "return 5 / 0" =
      some (.error (LuaError.runtime_error "Division by zero"), [0, 1, 2]) :=
  ⟨C7_div_mod_zero.1 (fun _ => none)
      ⟨[], [.number 0, .number 5], [], JitCompiler.new⟩
      (.number 5) (.number 0) [] 5 rfl rfl rfl,
   C7_div_mod_zero.2 (fun _ => none)⟩

/-- C8: `should_compile` holds exactly when the recorded execution count has
reached the threshold (100 for every `JitCompiler::new`), and
`find_hot_region_end` returns the index one past the first
`Jump`/`JumpIfFalse`/`JumpIfTrue`/`Return` at or after the start (the
boundary instruction is included), or the chunk's instruction count when no
such instruction follows. -/
theorem C8_jit_profiler :
    (∀ (j : JitCompiler) (pc : Nat), j.threshold = 100 →
      (j.should_compile pc = true ↔
        100 ≤ countsGet j.execution_counts pc)) ∧
    JitCompiler.new.threshold = 100 ∧
    (∀ (j : JitCompiler) (chunk : Chunk) (start_pc : Nat),
      (∃ jdx ins, start_pc ≤ jdx ∧ chunk.instructions[jdx]? = some ins ∧
        isRegionBoundary ins = true ∧
        (∀ k insk, start_pc ≤ k → k < jdx → chunk.instructions[k]? = some insk →
          isRegionBoundary insk = false) ∧
        j.find_hot_region_end chunk start_pc = jdx + 1) ∨
      ((∀ k insk, start_pc ≤ k → chunk.instructions[k]? = some insk →
          isRegionBoundary insk = false) ∧
        j.find_hot_region_end chunk start_pc = chunk.instructions.length)) := by
  refine ⟨?_, rfl, ?_⟩
  · intro j pc h
    simp [JitCompiler.should_compile, h]
  · intro j chunk start_pc
    exact regionScan_spec chunk.instructions start_pc

/-- Witness for C8: a counter map with 150 recorded executions at pc 7
makes pc 7 eligible, and the region scan of `[Add, Return, Add]` from 0
stops one past the `Return` — witnessed through the region
characterization. -/
theorem C8_jit_profiler_witness :
    ((JitCompiler.mk 100 [(7, 150)]).should_compile 7 = true ↔
      100 ≤ countsGet [(7, 150)] 7) ∧
    ((∃ jdx ins, 0 ≤ jdx ∧
        (Chunk.mk [.Add, .Return, .Add] [] []).instructions[jdx]? = some ins ∧
        isRegionBoundary ins = true ∧
        (∀ k insk, 0 ≤ k → k < jdx →
          (Chunk.mk [.Add, .Return, .Add] [] []).instructions[k]? = some insk →
          isRegionBoundary insk = false) ∧
        (JitCompiler.mk 100 []).find_hot_region_end
          (Chunk.mk [.Add, .Return, .Add] [] []) 0 = jdx + 1) ∨
      ((∀ k insk, 0 ≤ k →
          (Chunk.mk [.Add, .Return, .Add] [] []).instructions[k]? = some insk →
          isRegionBoundary insk = false) ∧
        (JitCompiler.mk 100 []).find_hot_region_end
          (Chunk.mk [.Add, .Return, .Add] [] []) 0 =
          (Chunk.mk [.Add, .Return, .Add] [] []).instructions.length)) :=
  ⟨C8_jit_profiler.1 (JitCompiler.mk 100 [(7, 150)]) 7 rfl,
   C8_jit_profiler.2.2 (JitCompiler.mk 100 [])
     (Chunk.mk [.Add, .Return, .Add] [] []) 0⟩

/-- C9: executing `GetIndex` on a non-table operand never aborts: it pops
the key and the indexed value and pushes the registry lookup of
`"<stringified-table>.<stringified-key>"` — a `function` value when the
registry resolves the name and `nil` otherwise — so the operand stack
shrinks by exactly one value. -/
theorem C9_getindex_nontable (builtins : BuiltinTable) (st : LuaJitRuntime)
    (key tableV : Value) (rest : List Value)
    (hstack : st.stack = key :: tableV :: rest)
    (hnt : ∀ entries, tableV ≠ .table entries) :
    execute_instruction builtins .GetIndex st =
      .ok (push { st with stack := rest }
        (((get_function (tableV.to_string ++ "." ++ key.to_string)).map
            Value.function).getD .nil)) ∧
    (execute_instruction builtins .GetIndex st).map
        (fun st' => st'.stack.length) = .ok (st.stack.length - 1) := by
  have hmain : execute_instruction builtins .GetIndex st =
      .ok (push { st with stack := rest }
        (((get_function (tableV.to_string ++ "." ++ key.to_string)).map
            Value.function).getD .nil)) := by
    rcases tableV with _ | b | q | s | entries | fid
    · cases hgf : get_function (Value.nil.to_string ++ "." ++ key.to_string) <;>
        simp [execute_instruction, hstack, hgf]
    · cases hgf : get_function ((Value.boolean b).to_string ++ "." ++ key.to_string) <;>
        simp [execute_instruction, hstack, hgf]
    · cases hgf : get_function ((Value.number q).to_string ++ "." ++ key.to_string) <;>
        simp [execute_instruction, hstack, hgf]
    · cases hgf : get_function ((Value.string s).to_string ++ "." ++ key.to_string) <;>
        simp [execute_instruction, hstack, hgf]
    · exact absurd rfl (hnt entries)
    · cases hgf : get_function ((Value.function fid).to_string ++ "." ++ key.to_string) <;>
        simp [execute_instruction, hstack, hgf]
  refine ⟨hmain, ?_⟩
  rw [hmain, hstack]
  simp [Except.map, push]

/-- Witness for C9: indexing the string `"math"` (a non-table) with the key
`"abs"` resolves `math.abs` in the external registry to function id 23, and
the operand stack shrinks from two values to one. -/
theorem C9_getindex_nontable_witness :
    execute_instruction (fun _ => none) .GetIndex
        ⟨[], [.string "abs", .string "math"], [], JitCompiler.new⟩ =
      .ok ⟨[], [.function 23], [], JitCompiler.new⟩ ∧
    (execute_instruction (fun _ => none) .GetIndex
        ⟨[], [.string "abs", .string "math"], [], JitCompiler.new⟩).map
        (fun st' => st'.stack.length) = .ok 1 :=
  C9_getindex_nontable (fun _ => none)
    ⟨[], [.string "abs", .string "math"], [], JitCompiler.new⟩
    (.string "abs") (.string "math") [] rfl
    (fun _ ht => Value.noConfusion ht)

/-- C10: reading a never-assigned global is not an undefined-variable
error: `LoadGlobal` on a name absent from the globals table pushes `Nil`
and succeeds, leaving every other component of the runtime state
unchanged. -/
theorem C10_loadglobal_absent (builtins : BuiltinTable) (st : LuaJitRuntime)
    (name : String) (habsent : alistGet st.globals name = none) :
    execute_instruction builtins (.LoadGlobal name) st =
      .ok { st with stack := Value.nil :: st.stack } := by
  simp [execute_instruction, habsent, push]

/-- Witness for C10: the fresh runtime's globals bind only `print`, `math`
and `string`, so loading the global `y` pushes `Nil`. -/
theorem C10_loadglobal_absent_witness :
    execute_instruction (fun _ => none) (.LoadGlobal "y") LuaJitRuntime.new =
      .ok { LuaJitRuntime.new with stack := [Value.nil] } :=
  C10_loadglobal_absent (fun _ => none) LuaJitRuntime.new "y" rfl

end Luna
